import Mathlib

/-!
# Image upload helper (`upload/upload.go`)

A shallow embedding of the four methods of `ImageUpload`
(`EnsureUploadDirectory`, `ProcessImageUpload`, `CleanupImageOnFailure`,
`SaveUploadedFile`) together with executable models of the Go standard
library calls they make (`filepath.Ext`, `strings.ToLower`, `fmt.Sprintf`,
`filepath.Join`, `os.Stat`, `os.MkdirAll`, `os.Create`, `io.Copy`,
`os.Remove`) on a Unix host.

Conventions.
* Go strings are Lean `String`s (valid UTF-8); byte loops of the library are
  written over `List Char`, which is equivalent for the ASCII bytes `/` and `.`
  they look for.
* The filesystem is a finite map from absolute component lists to nodes, with
  a current working directory; there are no symbolic or hard links and one
  user, whose rights on a node are the flags stored in it. Calls run one after
  the other: nothing else changes the filesystem in between.
* The bytes of an upload are held by the HTTP layer, outside this filesystem;
  a stream delivers some bytes and then ends or fails. Writing to an open file
  does not fail, and the deferred `Close` calls, whose errors the code drops,
  change nothing.
* Every stateful method takes the world (filesystem and emitted log events)
  and returns the new world next to its Go result.
* `time.Now().UnixNano()` is the argument `now` of `ProcessImageUpload`.
-/

namespace Upload

/-! ## Strings -/

/-- Unix `os.IsPathSeparator`. -/
def IsPathSeparator (c : Char) : Bool := c = '/'

/-- Loop of `filepath.Ext`: `rev` is `path[0..i]` reversed, `suffix` is `path[i+1..]`. -/
def extLoop : List Char → List Char → List Char
  | [], _ => []
  | c :: rev, suffix =>
    if IsPathSeparator c then []
    else if c = '.' then c :: suffix
    else extLoop rev (c :: suffix)

/-- Go `filepath.Ext`: the suffix beginning at the final dot in the final
element of `path`; empty if there is no dot. -/
def Ext (path : String) : String := String.mk (extLoop path.data.reverse [])

/-- Go `unicode.ToLower` for a rune below `utf8.RuneSelf`. -/
def asciiToLower (c : Char) : Char :=
  if 'A'.val ≤ c.val ∧ c.val ≤ 'Z'.val then Char.ofNat (c.val.toNat + 32) else c

/-- Go `unicode.ToLower`. The case table used above ASCII is the parameter
`unicodeLower`. -/
def runeToLower (unicodeLower : Char → Char) (c : Char) : Char :=
  if c.val < 128 then asciiToLower c else unicodeLower c

/-- Go `strings.ToLower`: every rune mapped to lower case (the ASCII fast path
of the library computes the same string). -/
def ToLower (unicodeLower : Char → Char) (s : String) : String :=
  String.mk (s.data.map (runeToLower unicodeLower))

/-- Decimal digit character. -/
def digitChar (d : Nat) : Char := Char.ofNat ('0'.toNat + d)

/-- Digit loop of `fmt`/`strconv` in base ten, least significant digit first. -/
def digitsRev : Nat → Nat → List Char
  | 0, _ => []
  | fuel + 1, u => if u < 10 then [digitChar u] else digitChar (u % 10) :: digitsRev fuel (u / 10)

/-- Decimal rendering of a natural number. -/
def formatNat (u : Nat) : List Char := (digitsRev (u + 1) u).reverse

/-- The verb `%d` applied to a signed integer. -/
def formatInt (n : Int) : String :=
  String.mk (if n < 0 then '-' :: formatNat n.natAbs else formatNat n.natAbs)

/-- Backtracking loop of `filepath.Clean` at a `..` element: `w` is decremented
while it is above `dotdot` and `out[w]` is not a separator. -/
def backLoop (out : List Char) (dotdot : Nat) : Nat → Nat
  | 0 => 0
  | w + 1 =>
    if w + 1 > dotdot ∧ out.get? (w + 1) ≠ some '/' then backLoop out dotdot w else w + 1

/-- Main loop of `filepath.Clean`: `path` is the unread input `path[r..]`,
`out` the buffer written so far. -/
def cleanLoop (rooted : Bool) : Nat → List Char → List Char → Nat → List Char
  | 0, _, out, _ => out
  | _ + 1, [], out, _ => out
  | fuel + 1, c :: rest, out, dotdot =>
    if IsPathSeparator c then
      -- empty path element
      cleanLoop rooted fuel rest out dotdot
    else if c = '.' ∧ (rest = [] ∨ rest.head? = some '/') then
      -- . element
      cleanLoop rooted fuel rest out dotdot
    else if c = '.' ∧ rest.head? = some '.' ∧ (rest.tail = [] ∨ rest.tail.head? = some '/') then
      -- .. element: remove to last separator
      if out.length > dotdot then
        cleanLoop rooted fuel rest.tail (out.take (backLoop out dotdot (out.length - 1))) dotdot
      else if !rooted then
        let out1 := (if out.length > 0 then out ++ ['/'] else out) ++ ['.', '.']
        cleanLoop rooted fuel rest.tail out1 out1.length
      else
        cleanLoop rooted fuel rest.tail out dotdot
    else
      -- real path element: add slash if needed, copy element
      let out1 :=
        if (rooted ∧ out.length ≠ 1) ∨ (!rooted ∧ out.length ≠ 0) then out ++ ['/'] else out
      cleanLoop rooted fuel ((c :: rest).dropWhile (fun x => !IsPathSeparator x))
        (out1 ++ (c :: rest).takeWhile (fun x => !IsPathSeparator x)) dotdot

/-- Go `filepath.Clean` on Unix. -/
def Clean (path : String) : String :=
  if path.data = [] then "."
  else
    let rooted := path.data.head? = some '/'
    let out :=
      if rooted then cleanLoop true (path.length + 1) path.data.tail ['/'] 1
      else cleanLoop false (path.length + 1) path.data [] 0
    if out.length = 0 then "." else String.mk out

/-- Go `strings.Join` with separator `/`. -/
def joinSep : List String → String
  | [] => ""
  | [e] => e
  | e :: es => e ++ "/" ++ joinSep es

/-- Go `filepath.Join` on Unix: leading empty elements are skipped, the rest
is joined with `/` and cleaned. -/
def Join : List String → String
  | [] => ""
  | e :: es => if e ≠ "" then Clean (joinSep (e :: es)) else Join es

/-! ## Errors -/

/-- The `syscall.Errno` values the model produces. -/
inductive Errno
  | ENOENT | ENOTDIR | EACCES | EEXIST | EISDIR | ENOTEMPTY | EINVAL | EBUSY
  deriving DecidableEq

/-- Go `syscall.Errno.Error` on Linux. -/
def Errno.Error : Errno → String
  | .ENOENT => "no such file or directory"
  | .ENOTDIR => "not a directory"
  | .EACCES => "permission denied"
  | .EEXIST => "file exists"
  | .EISDIR => "is a directory"
  | .ENOTEMPTY => "directory not empty"
  | .EINVAL => "invalid argument"
  | .EBUSY => "device or resource busy"

/-- Go `error` values: `errorString` is what `fmt.Errorf` builds without the
verb `%w` (and what the upload stream may report), `pathError` is
`*fs.PathError`, `wrapError` is what `fmt.Errorf` builds with `%w` (the
formatted message and the wrapped error). -/
inductive GoError
  | errorString (s : String)
  | pathError (op : String) (path : String) (err : Errno)
  | wrapError (msg : String) (err : GoError)
  deriving DecidableEq

/-- The method `Error()`. -/
def GoError.Error : GoError → String
  | .errorString s => s
  | .pathError op path err => op ++ " " ++ path ++ ": " ++ err.Error
  | .wrapError msg _ => msg

/-- The call `fmt.Errorf(format + "%w", err)`, where `format` has no verb. -/
def Errorf_w (format : String) (err : GoError) : GoError :=
  .wrapError (format ++ err.Error) err

/-- Go `os.IsNotExist` applied to a possibly nil error: true for a path error
carrying `ENOENT`; errors built by `fmt.Errorf` are not unwrapped. -/
def IsNotExist : Option GoError → Bool
  | some (.pathError _ _ .ENOENT) => true
  | _ => false

deriving instance DecidableEq for Except

/-! ## Filesystem -/

/-- A byte of file content. -/
abbrev Byte := Fin 256

/-- A node: a regular file with its content and the write permission of the
process on it, or a directory with write and search permission. -/
inductive Node
  | file (data : List Byte) (writable : Bool)
  | dir (writable : Bool) (searchable : Bool)
  deriving DecidableEq

/-- Go `FileInfo.IsDir`. -/
def Node.IsDir : Node → Bool
  | .dir _ _ => true
  | .file _ _ => false

/-- Absolute location of a node: the names from the root, `[]` being `/`. -/
abbrev Key := List String

/-- Filesystem state: the working directory of the process and the nodes. -/
structure FS where
  cwd : Key
  nodes : List (Key × Node)
  deriving DecidableEq

/-- The node stored at a key. -/
def getNode : List (Key × Node) → Key → Option Node
  | [], _ => none
  | (k, n) :: rest, key => if k = key then some n else getNode rest key

/-- The node the filesystem holds at a key. -/
def FS.get (fs : FS) (key : Key) : Option Node := getNode fs.nodes key

/-- The entries whose key is not `key`. -/
def eraseNode : List (Key × Node) → Key → List (Key × Node)
  | [], _ => []
  | (k, n) :: rest, key => if k = key then eraseNode rest key else (k, n) :: eraseNode rest key

/-- Removes the entry of a key. -/
def FS.erase (fs : FS) (key : Key) : FS :=
  { fs with nodes := eraseNode fs.nodes key }

/-- Stores a node at a key, replacing what was there. -/
def FS.set (fs : FS) (key : Key) (n : Node) : FS :=
  { fs with nodes := (key, n) :: eraseNode fs.nodes key }

/-- Splits a path at `/`, dropping empty elements; `cur` is the current
element reversed. -/
def splitLoop : List Char → List Char → List String
  | [], cur => if cur = [] then [] else [String.mk cur.reverse]
  | c :: cs, cur =>
    if c = '/' then
      if cur = [] then splitLoop cs [] else String.mk cur.reverse :: splitLoop cs []
    else splitLoop cs (c :: cur)

/-- The non-empty elements of a path. -/
def splitPath (p : String) : List String := splitLoop p.data []

/-- One step of name lookup from directory `cur`. -/
def stepKey (cur : Key) (c : String) : Key :=
  if c = "." then cur else if c = ".." then cur.dropLast else cur ++ [c]

/-- The process may look names up in `key`: it is a directory with search
permission. -/
def searchDir (fs : FS) (key : Key) : Except Errno Unit :=
  match fs.get key with
  | none => .error .ENOENT
  | some (.file _ _) => .error .ENOTDIR
  | some (.dir _ x) => if x then .ok () else .error .EACCES

/-- Kernel path walk: every element is looked up in a searchable directory;
the key reached by the last element is returned without being looked up. -/
def walk (fs : FS) : Key → List String → Except Errno Key
  | cur, [] => .ok cur
  | cur, c :: cs =>
    match searchDir fs cur with
    | .error e => .error e
    | .ok _ => walk fs (stepKey cur c) cs

/-- The path ends in a separator, so it must name a directory. -/
def trailingSlash (p : String) : Bool := p.data.getLast? = some '/'

/-- Path resolution: the empty path does not exist, a path starting with `/`
is walked from the root, any other from the working directory. -/
def resolve (fs : FS) (p : String) : Except Errno Key :=
  if p.data = [] then .error .ENOENT
  else walk fs (if p.data.head? = some '/' then [] else fs.cwd) (splitPath p)

/-- The process may add or remove names in the directory holding `key`. -/
def parentWritable (fs : FS) (key : Key) : Except Errno Unit :=
  match fs.get key.dropLast with
  | none => .error .ENOENT
  | some (.file _ _) => .error .ENOTDIR
  | some (.dir w x) => if w && x then .ok () else .error .EACCES

/-- System call `stat`. -/
def sysStat (fs : FS) (p : String) : Except Errno Node :=
  match resolve fs p with
  | .error e => .error e
  | .ok key =>
    match fs.get key with
    | none => .error .ENOENT
    | some n => if trailingSlash p && !n.IsDir then .error .ENOTDIR else .ok n

/-- System call `mkdir` with mode `0755`: the new directory is writable and
searchable by the process. -/
def sysMkdir (fs : FS) (p : String) : Except Errno FS :=
  match resolve fs p with
  | .error e => .error e
  | .ok key =>
    match fs.get key with
    | some _ => .error .EEXIST
    | none =>
      match parentWritable fs key with
      | .error e => .error e
      | .ok _ => .ok (fs.set key (.dir true true))

/-- System call `open` with `O_RDWR|O_CREATE|O_TRUNC` and mode `0666`: an
existing regular file is emptied, a missing one is created; the descriptor
is the key of the file. -/
def sysOpenCreateTrunc (fs : FS) (p : String) : Except Errno (Key × FS) :=
  match resolve fs p with
  | .error e => .error e
  | .ok key =>
    match fs.get key with
    | some (.dir _ _) => .error .EISDIR
    | some (.file _ w) =>
      if trailingSlash p then .error .ENOTDIR
      else if w then .ok (key, fs.set key (.file [] w)) else .error .EACCES
    | none =>
      if trailingSlash p then .error .EISDIR
      else
        match parentWritable fs key with
        | .error e => .error e
        | .ok _ => .ok (key, fs.set key (.file [] true))

/-- System call `write` on a descriptor: the bytes are appended to the file. -/
def sysWrite (fs : FS) (fd : Key) (bytes : List Byte) : FS :=
  match fs.get fd with
  | some (.file data w) => fs.set fd (.file (data ++ bytes) w)
  | _ => fs

/-- System call `unlink`. -/
def sysUnlink (fs : FS) (p : String) : Except Errno FS :=
  match resolve fs p with
  | .error e => .error e
  | .ok key =>
    match fs.get key with
    | none => .error .ENOENT
    | some (.dir _ _) => .error .EISDIR
    | some (.file _ _) =>
      if trailingSlash p then .error .ENOTDIR
      else
        match parentWritable fs key with
        | .error e => .error e
        | .ok _ => .ok (fs.erase key)

/-- Some node lies below `key`. -/
def hasChildren (fs : FS) (key : Key) : Bool :=
  fs.nodes.any (fun e => decide (e.1.length > key.length ∧ e.1.take key.length = key))

/-- System call `rmdir`. -/
def sysRmdir (fs : FS) (p : String) : Except Errno FS :=
  match resolve fs p with
  | .error e => .error e
  | .ok key =>
    match fs.get key with
    | none => .error .ENOENT
    | some (.file _ _) => .error .ENOTDIR
    | some (.dir _ _) =>
      if (splitPath p).getLast? = some "." then .error .EINVAL
      else if key = [] then .error .EBUSY
      else if hasChildren fs key then .error .ENOTEMPTY
      else
        match parentWritable fs key with
        | .error e => .error e
        | .ok _ => .ok (fs.erase key)

/-! ## Package `os` and `io` -/

/-- Go `os.Stat` (and `os.Lstat`, there being no symbolic links). -/
def Stat (fs : FS) (name : String) : Except GoError Node :=
  match sysStat fs name with
  | .error e => .error (.pathError "stat" name e)
  | .ok n => .ok n

/-- Go `os.Mkdir`. -/
def Mkdir (fs : FS) (name : String) : Except GoError FS :=
  match sysMkdir fs name with
  | .error e => .error (.pathError "mkdir" name e)
  | .ok fs1 => .ok fs1

/-- The parent computed by `os.MkdirAll`: trailing separators are skipped,
then the last element; what is left, `path[:i+1]`, is the parent. -/
def parentOf (path : String) : String :=
  String.mk
    ((path.data.reverse.dropWhile IsPathSeparator).dropWhile (fun c => !IsPathSeparator c)).reverse

/-- Error that `MkdirAllLoop` reports when its recursion bound is used up
(`MkdirAll_bound` shows that `MkdirAll` never does). -/
def recursionBound : GoError := .errorString "MkdirAll: recursion bound reached"

/-- Go `os.MkdirAll`; the first argument bounds the depth of the recursion on
the parent. Directories made before a failure stay. -/
def MkdirAllLoop : Nat → String → FS → Option GoError × FS
  | 0, _, fs => (some recursionBound, fs)
  | fuel + 1, path, fs =>
    -- Fast path: if we can tell whether path is a directory or file, stop.
    match Stat fs path with
    | .ok dir =>
      if dir.IsDir then (none, fs)
      else (some (.pathError "mkdir" path .ENOTDIR), fs)
    | .error _ =>
      -- Slow path: make sure parent exists and then call Mkdir for path.
      let parent := parentOf path
      let r := if parent.length > 0 then MkdirAllLoop fuel parent fs else (none, fs)
      match r with
      | (some err, fs1) => (some err, fs1)
      | (none, fs1) =>
        match Mkdir fs1 path with
        | .ok fs2 => (none, fs2)
        | .error err =>
          -- Handle arguments like "foo/." by double-checking that directory exists.
          match Stat fs1 path with
          | .ok dir => if dir.IsDir then (none, fs1) else (some err, fs1)
          | .error _ => (some err, fs1)

/-- Go `os.MkdirAll` with mode `0755`; the parent of a non-empty path is
shorter than the path, so the bound is never reached. -/
def MkdirAll (path : String) (fs : FS) : Option GoError × FS :=
  MkdirAllLoop (path.length + 1) path fs

/-- Go `os.Create`; the returned key stands for the open `*os.File`. -/
def Create (fs : FS) (name : String) : Except GoError (Key × FS) :=
  match sysOpenCreateTrunc fs name with
  | .error e => .error (.pathError "open" name e)
  | .ok r => .ok r

/-- Go `os.Remove`: `unlink`, then `rmdir`; when both fail the error of
`rmdir` is reported unless it is `ENOTDIR`. -/
def Remove (fs : FS) (name : String) : Except GoError FS :=
  match sysUnlink fs name with
  | .ok fs1 => .ok fs1
  | .error e =>
    match sysRmdir fs name with
    | .ok fs1 => .ok fs1
    | .error e1 => .error (.pathError "remove" name (if e1 ≠ .ENOTDIR then e1 else e))

/-- Go `os.ReadFile`, used to observe the content of a stored file. -/
def ReadFile (fs : FS) (name : String) : Except GoError (List Byte) :=
  match sysStat fs name with
  | .error e => .error (.pathError "open" name e)
  | .ok (.dir _ _) => .error (.pathError "read" name .EISDIR)
  | .ok (.file data _) => .ok data

/-- An open upload stream: the bytes it delivers, then end of file (`none`) or
a read error. -/
structure Stream where
  data : List Byte
  err : Option GoError
  deriving DecidableEq

/-- Go `io.Copy(out, src)`: the bytes read before the end or the failure of
the source are written to `out`; the read error, if any, is returned. -/
def Copy (fs : FS) (out : Key) (src : Stream) : Option GoError × FS :=
  (src.err, sysWrite fs out src.data)

/-! ## The uploaded file and the logger -/

/-- The part of `multipart.FileHeader` the package uses: the file name, the
declared size (`int64`), and what `Open()` returns. The uploaded bytes are
held by the HTTP layer, outside the filesystem modelled here. -/
structure FileHeader where
  Filename : String
  Size : Int
  Open : Except GoError Stream
  deriving DecidableEq

/-- Log levels the package uses. -/
inductive Level
  | debug | error
  deriving DecidableEq

/-- An event received by the logger: level, message and `zap` fields rendered
as text. -/
structure LogEvent where
  level : Level
  msg : String
  fields : List (String × String)
  deriving DecidableEq

/-- What the methods act upon: the filesystem and the events logged so far. -/
structure World where
  fs : FS
  log : List LogEvent
  deriving DecidableEq

/-- The call `h.logger.Error(msg, fields...)`. -/
def World.logError (w : World) (msg : String) (fields : List (String × String)) : World :=
  { w with log := w.log ++ [⟨.error, msg, fields⟩] }

/-- The call `h.logger.Debug(msg, fields...)`. -/
def World.logDebug (w : World) (msg : String) (fields : List (String × String)) : World :=
  { w with log := w.log ++ [⟨.debug, msg, fields⟩] }

/-! ## `upload.go` -/

/-- The method `(*ImageUpload).EnsureUploadDirectory`. -/
def EnsureUploadDirectory (uploadDir : String) (w : World) : Option GoError × World :=
  let err : Option GoError :=
    match Stat w.fs uploadDir with
    | .error e => some e
    | .ok _ => none
  if IsNotExist err then
    match MkdirAll uploadDir w.fs with
    | (some err, fs1) =>
      (some err,
        ({ w with fs := fs1 }).logError "failed to create upload directory"
          [("directory", uploadDir), ("error", err.Error)])
    | (none, fs1) => (none, { w with fs := fs1 })
  else (none, w)

/-- The map `allowedTypes`; a missing key reads as `false`. -/
def allowedTypes (ext : String) : Bool :=
  match [(".jpg", true), (".jpeg", true), (".png", true)].lookup ext with
  | some b => b
  | none => false

/-- The method `(*ImageUpload).SaveUploadedFile`. The deferred `Close` calls
do not change the model. -/
def SaveUploadedFile (file : FileHeader) (dst : String) (w : World) : Option GoError × World :=
  match file.Open with
  | .error err => (some (Errorf_w "failed to open uploaded file: " err), w)
  | .ok src =>
    match Create w.fs dst with
    | .error err => (some (Errorf_w "failed to create destination file: " err), w)
    | .ok (out, fs1) =>
      match Copy fs1 out src with
      | (some err, fs2) =>
        (some (Errorf_w "failed to copy file contents: " err), { w with fs := fs2 })
      | (none, fs2) => (none, { w with fs := fs2 })

/-- The method `(*ImageUpload).ProcessImageUpload`; `now` is the value of
`time.Now().UnixNano()`. The Go result `(string, error)` is the pair. -/
def ProcessImageUpload (unicodeLower : Char → Char) (now : Int) (file : FileHeader)
    (w : World) : (String × Option GoError) × World :=
  let ext := ToLower unicodeLower (Ext file.Filename)
  if !allowedTypes ext then
    (("", some (.errorString "invalid image type: only JPG, JPEG, PNG are allowed")), w)
  else if file.Size > ((5 <<< 20 : Nat) : Int) then
    (("", some (.errorString "image size must be less than 5MB")), w)
  else
    let uploadDir := "uploads/products"
    match EnsureUploadDirectory uploadDir w with
    | (some err, w1) =>
      (("", some (Errorf_w "failed to prepare upload directory: " err)), w1)
    | (none, w1) =>
      let filename := formatInt now ++ ext
      let imagePath := Join [uploadDir, filename]
      match SaveUploadedFile file imagePath w1 with
      | (some err, w2) =>
        (("", some (Errorf_w "failed to save image: " err)),
          w2.logError "failed to save uploaded file"
            [("path", imagePath), ("error", err.Error)])
      | (none, w2) =>
        ((imagePath, none),
          w2.logDebug "uploaded image successfully"
            [("path", imagePath), ("size", formatInt file.Size)])

/-- The method `(*ImageUpload).CleanupImageOnFailure`; it has no result. -/
def CleanupImageOnFailure (imagePath : String) (w : World) : World :=
  match Remove w.fs imagePath with
  | .error removeErr =>
    w.logDebug "failed to cleanup uploaded file"
      [("path", imagePath), ("error", removeErr.Error)]
  | .ok fs1 => { w with fs := fs1 }

/-! ## Notions used in the statements and proofs -/

/-- Value of a digit string given least significant digit first. -/
def valRev : List Char → Nat
  | [] => 0
  | c :: cs => (c.toNat - 48) + 10 * valRev cs

/-- The characters `0` to `9`. -/
def IsDigit (c : Char) : Prop := 48 ≤ c.toNat ∧ c.toNat ≤ 57

/-- A file name that `Clean` leaves alone: not empty, without separator, not
starting with a dot. -/
def PlainName (l : List Char) : Prop :=
  (∃ c t, l = c :: t ∧ c ≠ '.') ∧ ∀ x ∈ l, x ≠ '/'

/-- The characters of `uploads/products/`. -/
def uploadDirSlash : List Char :=
  ['u', 'p', 'l', 'o', 'a', 'd', 's', '/', 'p', 'r', 'o', 'd', 'u', 'c', 't', 's', '/']

/-- Every directory of `fs` in which names can be looked up is one in `fs1`,
and the working directory is the same. -/
def DirsKept (fs fs1 : FS) : Prop :=
  fs1.cwd = fs.cwd ∧ ∀ key, searchDir fs key = .ok () → searchDir fs1 key = .ok ()


/-! ## Worlds and files used as concrete instances -/

/-- A filesystem with the directories `/`, `/srv` and `/srv/app`, the last
being the working directory. -/
def exampleFS : FS :=
  ⟨["srv", "app"],
    [([], .dir true true), (["srv"], .dir true true), (["srv", "app"], .dir true true)]⟩

/-- The world on `exampleFS` with an empty log. -/
def exampleWorld : World := ⟨exampleFS, []⟩

/-- As `exampleFS`, with `uploads` a directory and `uploads/products` a
regular file. -/
def blockedFS : FS :=
  ⟨["srv", "app"],
    [([], .dir true true), (["srv"], .dir true true), (["srv", "app"], .dir true true),
      (["srv", "app", "uploads"], .dir true true),
      (["srv", "app", "uploads", "products"], .file [] true)]⟩

/-- As `exampleFS`, with `uploads` a regular file. -/
def blockedParentFS : FS :=
  ⟨["srv", "app"],
    [([], .dir true true), (["srv"], .dir true true), (["srv", "app"], .dir true true),
      (["srv", "app", "uploads"], .file [] true)]⟩

/-- As `exampleFS`, with the working directory read-only. -/
def readOnlyFS : FS :=
  ⟨["srv", "app"],
    [([], .dir true true), (["srv"], .dir true true), (["srv", "app"], .dir false true)]⟩

/-- As `exampleFS`, with a file `old.png` of three bytes in the working
directory. -/
def storedFS : FS :=
  ⟨["srv", "app"],
    [([], .dir true true), (["srv"], .dir true true), (["srv", "app"], .dir true true),
      (["srv", "app", "old.png"], .file [1, 2, 3] true)]⟩

/-- A 100-byte upload named `Photo.PNG`. -/
def examplePng : FileHeader :=
  ⟨"Photo.PNG", 100, .ok ⟨List.replicate 100 7, none⟩⟩

/-- A two-byte upload named `b.jpeg`. -/
def exampleJpeg : FileHeader :=
  ⟨"b.jpeg", 2, .ok ⟨[8, 9], none⟩⟩

/-- An upload named `anim.gif` declaring 5,242,881 bytes. -/
def exampleGif : FileHeader :=
  ⟨"anim.gif", 5242881, .ok ⟨[], none⟩⟩

/-- An upload named `a.jpg` declaring exactly 5,242,880 bytes. -/
def exampleAtLimit : FileHeader :=
  ⟨"a.jpg", 5242880, .ok ⟨[1], none⟩⟩

/-- An upload named `a.jpg` declaring 5,242,881 bytes. -/
def exampleOverLimit : FileHeader :=
  ⟨"a.jpg", 5242881, .ok ⟨[1], none⟩⟩

/-- An upload whose stream cannot be opened. -/
def exampleUnreadable : FileHeader :=
  ⟨"a.png", 3, .error (.errorString "multipart: temporary file is gone")⟩

/-! ## Validation -/

theorem allowedTypes_iff (ext : String) :
    allowedTypes ext = true ↔ ext = ".jpg" ∨ ext = ".jpeg" ∨ ext = ".png" := by
  unfold allowedTypes
  simp only [List.lookup]
  by_cases h1 : ext = ".jpg"
  · subst h1; simp
  · by_cases h2 : ext = ".jpeg"
    · subst h2; simp
    · by_cases h3 : ext = ".png"
      · subst h3; simp
      · have e1 : (ext == ".jpg") = false := by simpa using h1
        have e2 : (ext == ".jpeg") = false := by simpa using h2
        have e3 : (ext == ".png") = false := by simpa using h3
        simp [e1, e2, e3, h1, h2, h3]

theorem sizeLimit_eq : (((5 <<< 20 : Nat) : Int)) = 5242880 := by decide

theorem Process_invalid (ul : Char → Char) (now : Int) (file : FileHeader) (w : World)
    (h : allowedTypes (ToLower ul (Ext file.Filename)) = false) :
    ProcessImageUpload ul now file w =
      (("", some (.errorString "invalid image type: only JPG, JPEG, PNG are allowed")), w) := by
  simp [ProcessImageUpload, h]

theorem Process_tooLarge (ul : Char → Char) (now : Int) (file : FileHeader) (w : World)
    (h : allowedTypes (ToLower ul (Ext file.Filename)) = true) (hs : file.Size > 5242880) :
    ProcessImageUpload ul now file w = (("", some (.errorString "image size must be less than 5MB")), w) := by
  have hs2 : file.Size > ((5 <<< 20 : Nat) : Int) := by rw [sizeLimit_eq]; exact hs
  simp only [ProcessImageUpload, h, Bool.not_true, Bool.false_eq_true, if_false,
    if_pos hs2]

/-- The steps of `ProcessImageUpload` once both checks have passed. -/
theorem Process_checked (ul : Char → Char) (now : Int) (file : FileHeader) (w : World)
    (h : allowedTypes (ToLower ul (Ext file.Filename)) = true) (hs : file.Size ≤ 5242880) :
    ProcessImageUpload ul now file w =
      match EnsureUploadDirectory "uploads/products" w with
      | (some err, w1) =>
        (("", some (Errorf_w "failed to prepare upload directory: " err)), w1)
      | (none, w1) =>
        match SaveUploadedFile file
            (Join ["uploads/products", formatInt now ++ ToLower ul (Ext file.Filename)]) w1 with
        | (some err, w2) =>
          (("", some (Errorf_w "failed to save image: " err)),
            w2.logError "failed to save uploaded file"
              [("path", Join ["uploads/products",
                  formatInt now ++ ToLower ul (Ext file.Filename)]),
                ("error", err.Error)])
        | (none, w2) =>
          ((Join ["uploads/products", formatInt now ++ ToLower ul (Ext file.Filename)], none),
            w2.logDebug "uploaded image successfully"
              [("path", Join ["uploads/products",
                  formatInt now ++ ToLower ul (Ext file.Filename)]),
                ("size", formatInt file.Size)]) := by
  have hs2 : ¬ file.Size > ((5 <<< 20 : Nat) : Int) := by rw [sizeLimit_eq]; omega
  simp only [ProcessImageUpload, h, Bool.not_true, Bool.false_eq_true, if_false, if_neg hs2]


/-! ## Decimal rendering -/

theorem digitChar_toNat (d : Nat) (h : d < 10) : (digitChar d).toNat = 48 + d := by
  interval_cases d <;> rfl

theorem digitChar_isDigit (d : Nat) (h : d < 10) : IsDigit (digitChar d) := by
  unfold IsDigit
  rw [digitChar_toNat d h]
  omega

theorem digitsRev_isDigit (fuel : Nat) : ∀ u, ∀ c ∈ digitsRev fuel u, IsDigit c := by
  induction fuel with
  | zero => intro u c hc; simp [digitsRev] at hc
  | succ fuel ih =>
    intro u c hc
    unfold digitsRev at hc
    by_cases hu : u < 10
    · simp only [hu, if_true, List.mem_singleton] at hc
      subst hc
      exact digitChar_isDigit u hu
    · simp only [hu, if_false, List.mem_cons] at hc
      rcases hc with hc | hc
      · subst hc
        exact digitChar_isDigit _ (Nat.mod_lt _ (by decide))
      · exact ih _ c hc

theorem digitsRev_ne_nil (fuel u : Nat) : digitsRev (fuel + 1) u ≠ [] := by
  unfold digitsRev
  by_cases hu : u < 10 <;> simp [hu]

theorem valRev_digitsRev (fuel : Nat) : ∀ u, u < fuel → valRev (digitsRev fuel u) = u := by
  induction fuel with
  | zero => intro u hu; omega
  | succ fuel ih =>
    intro u hu
    unfold digitsRev
    by_cases h10 : u < 10
    · simp only [h10, if_true, valRev]
      rw [digitChar_toNat u h10]
      omega
    · simp only [h10, if_false, valRev]
      rw [digitChar_toNat _ (Nat.mod_lt _ (by decide)), ih (u / 10) (by omega)]
      omega

theorem formatNat_injective (a b : Nat) (h : formatNat a = formatNat b) : a = b := by
  unfold formatNat at h
  have h2 := List.reverse_injective h
  have ha := valRev_digitsRev (a + 1) a (Nat.lt_succ_self _)
  have hb := valRev_digitsRev (b + 1) b (Nat.lt_succ_self _)
  rw [h2] at ha
  omega

theorem formatNat_isDigit (u : Nat) : ∀ c ∈ formatNat u, IsDigit c := by
  intro c hc
  unfold formatNat at hc
  exact digitsRev_isDigit _ _ c (List.mem_reverse.mp hc)

theorem formatNat_ne_nil (u : Nat) : formatNat u ≠ [] := by
  unfold formatNat
  intro h
  exact digitsRev_ne_nil u u (List.reverse_eq_nil_iff.mp h)

/-- The characters of a rendered integer are digits or the sign. -/
theorem formatInt_chars (n : Int) : ∀ c ∈ (formatInt n).data, IsDigit c ∨ c = '-' := by
  intro c hc
  unfold formatInt at hc
  by_cases hn : n < 0
  · simp only [hn, if_true, List.mem_cons] at hc
    rcases hc with hc | hc
    · exact Or.inr hc
    · exact Or.inl (formatNat_isDigit _ c hc)
  · simp only [hn, if_false] at hc
    exact Or.inl (formatNat_isDigit _ c hc)

theorem formatInt_ne_nil (n : Int) : (formatInt n).data ≠ [] := by
  unfold formatInt
  by_cases hn : n < 0
  · simp [hn]
  · simp only [hn, if_false]
    exact formatNat_ne_nil _

theorem formatInt_injective (a b : Int) (h : formatInt a = formatInt b) : a = b := by
  unfold formatInt at h
  have hd : ∀ u : Nat, ∀ l, formatNat u ≠ '-' :: l := by
    intro u l e
    have := formatNat_isDigit u '-' (by rw [e]; simp)
    unfold IsDigit at this
    have h45 : ('-' : Char).toNat = 45 := rfl
    omega
  have h := congrArg String.data h
  by_cases ha : a < 0 <;> by_cases hb : b < 0
  · simp only [ha, hb, if_true, List.cons.injEq, true_and] at h
    have := formatNat_injective _ _ h
    omega
  · simp only [ha, hb, if_true, if_false] at h
    exact absurd h.symm (hd _ _)
  · simp only [ha, hb, if_true, if_false] at h
    exact absurd h (hd _ _)
  · simp only [ha, hb, if_false] at h
    have := formatNat_injective _ _ h
    omega

/-! ## `filepath.Ext` -/

theorem extLoop_skip (l : List Char) (hl : ∀ c ∈ l, c ≠ '/' ∧ c ≠ '.') :
    ∀ (rest suffix : List Char), extLoop (l ++ rest) suffix = extLoop rest (l.reverse ++ suffix) := by
  induction l with
  | nil => intro rest suffix; rfl
  | cons c t ih =>
    intro rest suffix
    obtain ⟨h1, h2⟩ := hl c (List.mem_cons_self _ _)
    rw [List.cons_append, extLoop]
    simp only [IsPathSeparator, decide_eq_true_eq, h1, h2, if_false]
    rw [ih (fun x hx => hl x (List.mem_cons_of_mem _ hx))]
    simp

/-- The extension is the suffix from the last dot of the final path element. -/
theorem Ext_of_dot (front suf : List Char) (hsuf : ∀ c ∈ suf, c ≠ '/' ∧ c ≠ '.') :
    Ext (String.mk (front ++ '.' :: suf)) = String.mk ('.' :: suf) := by
  unfold Ext
  have h : (front ++ '.' :: suf).reverse = suf.reverse ++ '.' :: front.reverse := by simp
  show String.mk (extLoop (front ++ '.' :: suf).reverse []) = _
  rw [h, extLoop_skip suf.reverse (fun c hc => hsuf c (List.mem_reverse.mp hc)), extLoop]
  simp [IsPathSeparator]

/-- The extension is empty when the final path element has no dot. -/
theorem Ext_no_dot (front base : List Char) (hbase : ∀ c ∈ base, c ≠ '/' ∧ c ≠ '.')
    (hfront : front = [] ∨ ∃ d, front = d ++ ['/']) :
    Ext (String.mk (front ++ base)) = "" := by
  unfold Ext
  have h : (front ++ base).reverse = base.reverse ++ front.reverse := by simp
  show String.mk (extLoop (front ++ base).reverse []) = _
  rw [h, extLoop_skip base.reverse (fun c hc => hbase c (List.mem_reverse.mp hc))]
  rcases hfront with hf | ⟨d, hf⟩
  · subst hf; rfl
  · subst hf
    simp [extLoop, IsPathSeparator]


/-! ## `filepath.Join` on the upload directory -/

theorem cleanLoop_nil (rooted : Bool) (fuel : Nat) (out : List Char) (dotdot : Nat) :
    cleanLoop rooted fuel [] out dotdot = out := by
  cases fuel <;> rfl

theorem cleanLoop_sep (rooted : Bool) (fuel : Nat) (rest out : List Char) (dotdot : Nat) :
    cleanLoop rooted (fuel + 1) ('/' :: rest) out dotdot = cleanLoop rooted fuel rest out dotdot := by
  simp [cleanLoop, IsPathSeparator]

/-- A real path element is copied to the output, after a separator if the
output is not empty. -/
theorem cleanLoop_elem (fuel : Nat) (c : Char) (elem rest out : List Char) (dotdot : Nat)
    (hc1 : c ≠ '/') (hc2 : c ≠ '.') (he : ∀ x ∈ elem, x ≠ '/')
    (hr : rest = [] ∨ ∃ t, rest = '/' :: t) :
    cleanLoop false (fuel + 1) (c :: (elem ++ rest)) out dotdot =
      cleanLoop false fuel rest
        ((if out.length ≠ 0 then out ++ ['/'] else out) ++ c :: elem) dotdot := by
  have hp : ∀ x ∈ c :: elem, (fun x => !IsPathSeparator x) x = true := by
    intro x hx
    rcases List.mem_cons.mp hx with h | h
    · subst h; simpa [IsPathSeparator] using hc1
    · simpa [IsPathSeparator] using he x h
  have ht : (c :: (elem ++ rest)).takeWhile (fun x => !IsPathSeparator x) = c :: elem := by
    rw [← List.cons_append, List.takeWhile_append_of_pos hp]
    rcases hr with h | ⟨t, h⟩ <;> subst h <;> simp [List.takeWhile, IsPathSeparator]
  have hd : (c :: (elem ++ rest)).dropWhile (fun x => !IsPathSeparator x) = rest := by
    rw [← List.cons_append, List.dropWhile_append_of_pos hp]
    rcases hr with h | ⟨t, h⟩ <;> subst h <;> simp [List.dropWhile, IsPathSeparator]
  have hs : IsPathSeparator c = false := by simpa [IsPathSeparator] using hc1
  rw [cleanLoop]
  simp only [hs, hc2, false_and, if_false, Bool.false_eq_true, ht, hd]
  simp

theorem cleanLoop_first (fuel : Nat) (c : Char) (elem rest : List Char) (dotdot : Nat)
    (hc1 : c ≠ '/') (hc2 : c ≠ '.') (he : ∀ x ∈ elem, x ≠ '/')
    (hr : rest = [] ∨ ∃ t, rest = '/' :: t) :
    cleanLoop false (fuel + 1) (c :: (elem ++ rest)) [] dotdot =
      cleanLoop false fuel rest (c :: elem) dotdot := by
  rw [cleanLoop_elem fuel c elem rest [] dotdot hc1 hc2 he hr]
  simp

theorem cleanLoop_next (fuel : Nat) (c o : Char) (elem rest os : List Char) (dotdot : Nat)
    (hc1 : c ≠ '/') (hc2 : c ≠ '.') (he : ∀ x ∈ elem, x ≠ '/')
    (hr : rest = [] ∨ ∃ t, rest = '/' :: t) :
    cleanLoop false (fuel + 1) (c :: (elem ++ rest)) (o :: os) dotdot =
      cleanLoop false fuel rest (o :: os ++ '/' :: c :: elem) dotdot := by
  rw [cleanLoop_elem fuel c elem rest (o :: os) dotdot hc1 hc2 he hr]
  simp

theorem cleanLoop_upload (fuel : Nat) (c : Char) (t : List Char)
    (hc1 : c ≠ '/') (hc2 : c ≠ '.') (ht : ∀ x ∈ t, x ≠ '/') :
    cleanLoop false (fuel + 5) (uploadDirSlash ++ c :: t) [] 0 = uploadDirSlash ++ c :: t := by
  have e1 := cleanLoop_first (fuel + 4) 'u' ['p', 'l', 'o', 'a', 'd', 's']
    ('/' :: 'p' :: (['r', 'o', 'd', 'u', 'c', 't', 's'] ++ '/' :: (c :: (t ++ [])))) 0
    (by decide) (by decide) (by decide) (Or.inr ⟨_, rfl⟩)
  have e2 := cleanLoop_next (fuel + 2) 'p' 'u' ['r', 'o', 'd', 'u', 'c', 't', 's']
    ('/' :: (c :: (t ++ []))) ['p', 'l', 'o', 'a', 'd', 's'] 0
    (by decide) (by decide) (by decide) (Or.inr ⟨_, rfl⟩)
  have e3 := cleanLoop_next fuel c 'u' t []
    ['p', 'l', 'o', 'a', 'd', 's', '/', 'p', 'r', 'o', 'd', 'u', 'c', 't', 's'] 0 hc1 hc2 ht
    (Or.inl rfl)
  have hstart : uploadDirSlash ++ c :: t
      = 'u' :: (['p', 'l', 'o', 'a', 'd', 's'] ++
          '/' :: 'p' :: (['r', 'o', 'd', 'u', 'c', 't', 's'] ++ '/' :: (c :: (t ++ [])))) := by
    simp [uploadDirSlash]
  have hmid : 'u' :: ['p', 'l', 'o', 'a', 'd', 's'] ++ '/' :: 'p' :: ['r', 'o', 'd', 'u', 'c', 't', 's']
      = 'u' :: ['p', 'l', 'o', 'a', 'd', 's', '/', 'p', 'r', 'o', 'd', 'u', 'c', 't', 's'] := rfl
  rw [hstart, e1, cleanLoop_sep, e2, cleanLoop_sep, hmid, e3, cleanLoop_nil]
  simp

theorem Clean_upload (l : List Char) (h : PlainName l) :
    Clean (String.mk (uploadDirSlash ++ l)) = String.mk (uploadDirSlash ++ l) := by
  obtain ⟨⟨c, t, hl, hc⟩, hall⟩ := h
  subst hl
  have hc1 : c ≠ '/' := hall c (List.mem_cons_self _ _)
  have ht : ∀ x ∈ t, x ≠ '/' := fun x hx => hall x (List.mem_cons_of_mem _ hx)
  have hfuel : (String.mk (uploadDirSlash ++ c :: t)).length + 1 = (t.length + 14) + 5 := by
    rw [String.length_mk]
    simp only [List.length_append, List.length_cons, uploadDirSlash, List.length_nil]
    omega
  unfold Clean
  rw [hfuel]
  have hne : (uploadDirSlash ++ c :: t) ≠ [] := by simp
  have hh : (uploadDirSlash ++ c :: t).head? ≠ some '/' := by
    simp [uploadDirSlash]
  simp only [hne, hh, if_false, decide_False, Bool.false_eq_true]
  rw [cleanLoop_upload _ c t hc1 hc ht]
  simp [uploadDirSlash]

theorem IsDigit_ne (c : Char) (h : IsDigit c ∨ c = '-') : c ≠ '.' ∧ c ≠ '/' := by
  rcases h with h | h
  · unfold IsDigit at h
    constructor <;> (intro e; subst e; revert h; decide)
  · subst h; decide

/-- The file name built by `ProcessImageUpload` from a timestamp and an
allowed extension is a plain name. -/
theorem plainName_filename (now : Int) (ext : String)
    (hext : ext = ".jpg" ∨ ext = ".jpeg" ∨ ext = ".png") :
    PlainName (formatInt now ++ ext).data := by
  have hd : (formatInt now ++ ext).data = (formatInt now).data ++ ext.data := rfl
  rw [hd]
  have hext2 : ∀ x ∈ ext.data, x ≠ '/' := by
    rcases hext with h | h | h <;> subst h <;> decide
  constructor
  · cases hf : (formatInt now).data with
    | nil => exact absurd hf (formatInt_ne_nil now)
    | cons c t =>
      refine ⟨c, t ++ ext.data, rfl, ?_⟩
      have := formatInt_chars now c (by rw [hf]; simp)
      exact (IsDigit_ne c this).1
  · intro x hx
    rcases List.mem_append.mp hx with h | h
    · exact (IsDigit_ne x (formatInt_chars now x h)).2
    · exact hext2 x h

theorem Join_upload (name : String) (h : PlainName name.data) :
    Join ["uploads/products", name] = "uploads/products/" ++ name := by
  have e : joinSep ["uploads/products", name] = String.mk (uploadDirSlash ++ name.data) := rfl
  have e2 : "uploads/products/" ++ name = String.mk (uploadDirSlash ++ name.data) := rfl
  have hne : ("uploads/products" : String) ≠ "" := by decide
  rw [Join, if_pos hne, e, e2]
  exact Clean_upload _ h

theorem splitLoop_elem (elem : List Char) (he : ∀ x ∈ elem, x ≠ '/') :
    ∀ (rest cur : List Char), splitLoop (elem ++ rest) cur = splitLoop rest (elem.reverse ++ cur) := by
  induction elem with
  | nil => intro rest cur; rfl
  | cons c t ih =>
    intro rest cur
    have hc : c ≠ '/' := he c (List.mem_cons_self _ _)
    rw [List.cons_append, splitLoop]
    simp only [hc, if_false]
    rw [ih (fun x hx => he x (List.mem_cons_of_mem _ hx))]
    simp

theorem splitPath_upload (name : String) (h : PlainName name.data) :
    splitPath ("uploads/products/" ++ name) = ["uploads", "products", name] := by
  obtain ⟨⟨c, t, hl, _⟩, hall⟩ := h
  have e2 : ("uploads/products/" ++ name).data
      = ['u', 'p', 'l', 'o', 'a', 'd', 's'] ++ '/' ::
          (['p', 'r', 'o', 'd', 'u', 'c', 't', 's'] ++ '/' :: (name.data ++ [])) := by
    rw [List.append_nil]; rfl
  unfold splitPath
  rw [e2, splitLoop_elem _ (by decide), splitLoop]
  simp only [if_true]
  rw [if_neg (by decide), splitLoop_elem _ (by decide), splitLoop]
  simp only [if_true]
  rw [if_neg (by decide), splitLoop_elem _ hall, splitLoop]
  have hne : ¬ (name.data.reverse ++ [] = []) := by rw [hl]; simp
  rw [if_neg hne]
  simp


/-! ## Filesystem lemmas -/

theorem getNode_eraseNode (nodes : List (Key × Node)) (k key : Key) :
    getNode (eraseNode nodes k) key = if key = k then none else getNode nodes key := by
  induction nodes with
  | nil => simp [getNode, eraseNode]
  | cons e rest ih =>
    obtain ⟨k1, n1⟩ := e
    by_cases h1 : k1 = k
    · subst h1
      by_cases h2 : k1 = key
      · subst h2; simp [eraseNode, ih]
      · have h3 : ¬ key = k1 := fun h => h2 h.symm
        simp [eraseNode, ih, getNode, h2, h3]
    · by_cases h2 : k1 = key
      · subst h2; simp [eraseNode, h1, getNode]
      · simp [eraseNode, h1, getNode, h2, ih]

theorem get_set (fs : FS) (k : Key) (n : Node) (key : Key) :
    (fs.set k n).get key = if key = k then some n else fs.get key := by
  by_cases h : key = k
  · subst h; simp [FS.set, FS.get, getNode]
  · have h2 : ¬ k = key := fun e => h e.symm
    simp [FS.set, FS.get, getNode, h, h2, getNode_eraseNode]

theorem get_erase (fs : FS) (k key : Key) :
    (fs.erase k).get key = if key = k then none else fs.get key := by
  simp [FS.erase, FS.get, getNode_eraseNode]

theorem searchDir_ok_iff (fs : FS) (key : Key) :
    searchDir fs key = .ok () ↔ ∃ w, fs.get key = some (.dir w true) := by
  unfold searchDir
  cases h : fs.get key with
  | none => simp
  | some n =>
    cases n with
    | file d w => simp
    | dir w x => cases x <;> simp

theorem dirsKept_set (fs : FS) (k : Key) (n : Node)
    (h : ∀ w x, fs.get k ≠ some (.dir w x)) : DirsKept fs (fs.set k n) := by
  refine ⟨rfl, ?_⟩
  intro key hk
  rw [searchDir_ok_iff] at hk ⊢
  obtain ⟨w, hw⟩ := hk
  have hne : key ≠ k := by
    intro e; subst e; exact h w true hw
  exact ⟨w, by rw [get_set, if_neg hne]; exact hw⟩

theorem dirsKept_erase (fs : FS) (k : Key)
    (h : ∀ w x, fs.get k ≠ some (.dir w x)) : DirsKept fs (fs.erase k) := by
  refine ⟨rfl, ?_⟩
  intro key hk
  rw [searchDir_ok_iff] at hk ⊢
  obtain ⟨w, hw⟩ := hk
  have hne : key ≠ k := by
    intro e; subst e; exact h w true hw
  exact ⟨w, by rw [get_erase, if_neg hne]; exact hw⟩

theorem walk_kept (fs fs1 : FS) (h : DirsKept fs fs1) (comps : List String) :
    ∀ (cur key : Key), walk fs cur comps = .ok key → walk fs1 cur comps = .ok key := by
  induction comps with
  | nil => intro cur key hw; simpa [walk] using hw
  | cons c cs ih =>
    intro cur key hw
    unfold walk at hw ⊢
    cases hs : searchDir fs cur with
    | error e => rw [hs] at hw; simp at hw
    | ok u =>
      rw [hs] at hw
      rw [h.2 cur hs]
      exact ih _ _ hw

theorem resolve_kept (fs fs1 : FS) (h : DirsKept fs fs1) (p : String) (key : Key)
    (hr : resolve fs p = .ok key) : resolve fs1 p = .ok key := by
  unfold resolve at hr ⊢
  by_cases hp : p.data = []
  · simp [hp] at hr
  · simp only [hp, if_false] at hr ⊢
    rw [h.1]
    exact walk_kept fs fs1 h _ _ _ hr

/-! ## What the system calls leave behind -/

theorem sysMkdir_stat (fs fs1 : FS) (p : String) (h : sysMkdir fs p = .ok fs1) :
    sysStat fs1 p = .ok (.dir true true) := by
  unfold sysMkdir at h
  cases hr : resolve fs p with
  | error e => simp only [hr] at h; simp at h
  | ok key =>
    simp only [hr] at h
    cases hg : fs.get key with
    | some n => simp only [hg] at h; simp at h
    | none =>
      simp only [hg] at h
      cases hp : parentWritable fs key with
      | error e => simp only [hp] at h; simp at h
      | ok u =>
        simp only [hp] at h
        simp only [Except.ok.injEq] at h
        subst h
        have hk : DirsKept fs (fs.set key (.dir true true)) :=
          dirsKept_set fs key _ (by intro w x; rw [hg]; simp)
        unfold sysStat
        rw [resolve_kept fs _ hk p key hr]
        simp [get_set, Node.IsDir]

theorem Mkdir_Stat (fs fs1 : FS) (p : String) (h : Mkdir fs p = .ok fs1) :
    Stat fs1 p = .ok (.dir true true) := by
  unfold Mkdir at h
  cases hm : sysMkdir fs p with
  | error e => simp only [hm] at h; simp at h
  | ok fs2 =>
    simp only [hm] at h
    simp only [Except.ok.injEq] at h
    subst h
    simp [Stat, sysMkdir_stat fs fs2 p hm]

/-- After a successful `MkdirAll` the path names a directory. -/
theorem MkdirAllLoop_isDir (fuel : Nat) (p : String) (fs fs1 : FS)
    (h : MkdirAllLoop fuel p fs = (none, fs1)) :
    ∃ n, Stat fs1 p = .ok n ∧ n.IsDir = true := by
  cases fuel with
  | zero => simp [MkdirAllLoop] at h
  | succ fuel =>
    unfold MkdirAllLoop at h
    cases hs : Stat fs p with
    | ok dir =>
      simp only [hs] at h
      by_cases hd : dir.IsDir = true
      · simp only [hd, if_true, Prod.mk.injEq, true_and] at h
        subst h
        exact ⟨dir, hs, hd⟩
      · simp [hd] at h
    | error e =>
      simp only [hs] at h
      generalize (if (parentOf p).length > 0 then MkdirAllLoop fuel (parentOf p) fs
        else (none, fs)) = r at h
      obtain ⟨re, fs2⟩ := r
      cases re with
      | some err => simp at h
      | none =>
        simp only at h
        cases hm : Mkdir fs2 p with
        | ok fs3 =>
          simp only [hm] at h
          simp only [Prod.mk.injEq, true_and] at h
          subst h
          exact ⟨_, Mkdir_Stat fs2 fs3 p hm, rfl⟩
        | error err =>
          simp only [hm] at h
          cases hs2 : Stat fs2 p with
          | error e2 => simp only [hs2] at h; simp at h
          | ok dir =>
            simp only [hs2] at h
            by_cases hd : dir.IsDir = true
            · simp only [hd, if_true, Prod.mk.injEq, true_and] at h
              subst h
              exact ⟨dir, hs2, hd⟩
            · simp [hd] at h

theorem MkdirAll_isDir (p : String) (fs fs1 : FS) (h : MkdirAll p fs = (none, fs1)) :
    ∃ n, Stat fs1 p = .ok n ∧ n.IsDir = true :=
  MkdirAllLoop_isDir _ p fs fs1 h

theorem length_dropWhile_le (f : Char → Bool) (l : List Char) :
    (l.dropWhile f).length ≤ l.length :=
  (List.dropWhile_sublist f).length_le

theorem parentOf_length (p : String) (h : 0 < p.length) : (parentOf p).length < p.length := by
  have hlen : p.length = p.data.reverse.length := by
    rw [List.length_reverse]; rfl
  have hpar : (parentOf p).length =
      ((p.data.reverse.dropWhile IsPathSeparator).dropWhile
        (fun c => !IsPathSeparator c)).length := by
    unfold parentOf
    rw [String.length_mk, List.length_reverse]
  rw [hpar, hlen]
  rw [hlen] at h
  cases hl : p.data.reverse with
  | nil => rw [hl] at h; simp at h
  | cons c t =>
    by_cases hc : IsPathSeparator c = true
    · have h1 := length_dropWhile_le (fun c => !IsPathSeparator c)
        (List.dropWhile IsPathSeparator t)
      have h2 := length_dropWhile_le IsPathSeparator t
      simp only [List.dropWhile, hc, List.length_cons]
      omega
    · have h1 := length_dropWhile_le (fun c => !IsPathSeparator c) t
      have hc2 : IsPathSeparator c = false := by simpa using hc
      simp only [List.dropWhile, hc2, List.length_cons, Bool.not_false]
      omega

/-- The recursion bound of `MkdirAll` is never reached: any larger bound gives
the same result. -/
theorem MkdirAllLoop_fuel (fuel : Nat) :
    ∀ (p : String) (fs : FS), p.length < fuel →
      MkdirAllLoop fuel p fs = MkdirAllLoop (p.length + 1) p fs := by
  induction fuel using Nat.strong_induction_on with
  | _ fuel ih =>
    intro p fs hlt
    cases fuel with
    | zero => omega
    | succ fuel =>
      unfold MkdirAllLoop
      by_cases hpar : (parentOf p).length > 0
      · have hp0 : 0 < p.length := by
          by_contra hne
          have h0 : p.data.length = 0 := by
            have : p.length = 0 := by omega
            exact this
          have hd : p.data = [] := List.length_eq_zero.mp h0
          have h1 : (parentOf p).length = 0 := by
            unfold parentOf
            rw [String.length_mk, hd]
            rfl
          omega
        have hlt2 := parentOf_length p hp0
        have e1 : MkdirAllLoop fuel (parentOf p) fs
            = MkdirAllLoop ((parentOf p).length + 1) (parentOf p) fs :=
          ih fuel (Nat.lt_succ_self _) _ _ (by omega)
        have e2 : MkdirAllLoop p.length (parentOf p) fs
            = MkdirAllLoop ((parentOf p).length + 1) (parentOf p) fs :=
          ih p.length hlt _ _ hlt2
        simp only [e1, e2]
      · simp only [hpar, if_false]

theorem Mkdir_error (fs : FS) (p : String) (err : GoError) (h : Mkdir fs p = .error err) :
    ∃ e, err = .pathError "mkdir" p e := by
  unfold Mkdir at h
  cases hm : sysMkdir fs p with
  | ok fs1 => simp only [hm] at h; simp at h
  | error e =>
    simp only [hm, Except.error.injEq] at h
    exact ⟨e, h.symm⟩

/-- With a bound above the length of the path the recursion of `MkdirAll`
does not run out. -/
theorem MkdirAllLoop_bound (fuel : Nat) :
    ∀ (p : String) (fs : FS), p.length < fuel →
      (MkdirAllLoop fuel p fs).1 ≠ some recursionBound := by
  induction fuel with
  | zero => intro p fs h; omega
  | succ fuel ih =>
    intro p fs hlt
    unfold MkdirAllLoop
    cases hs : Stat fs p with
    | ok dir =>
      by_cases hd : dir.IsDir = true
      · simp [hd]
      · simp [hd, recursionBound]
    | error e =>
      simp only
      have hr : (if (parentOf p).length > 0 then MkdirAllLoop fuel (parentOf p) fs
          else (none, fs)).1 ≠ some recursionBound := by
        by_cases hpar : (parentOf p).length > 0
        · have hp0 : 0 < p.length := by
            by_contra hne
            have h0 : p.data.length = 0 := by
              have : p.length = 0 := by omega
              exact this
            have hd : p.data = [] := List.length_eq_zero.mp h0
            have h1 : (parentOf p).length = 0 := by
              unfold parentOf
              rw [String.length_mk, hd]
              rfl
            omega
          have hlt2 := parentOf_length p hp0
          simp only [hpar, if_true]
          exact ih _ _ (by omega)
        · simp [hpar]
      generalize (if (parentOf p).length > 0 then MkdirAllLoop fuel (parentOf p) fs
        else (none, fs)) = r at hr
      obtain ⟨re, fs2⟩ := r
      cases re with
      | some err => simpa using hr
      | none =>
        simp only
        cases hm : Mkdir fs2 p with
        | ok fs3 => simp
        | error err =>
          obtain ⟨e2, he2⟩ := Mkdir_error fs2 p err hm
          subst he2
          simp only
          cases hs2 : Stat fs2 p with
          | error e3 => simp [recursionBound]
          | ok dir =>
            by_cases hd : dir.IsDir = true
            · simp [hd]
            · simp [hd, recursionBound]

theorem MkdirAll_bound (p : String) (fs : FS) : (MkdirAll p fs).1 ≠ some recursionBound :=
  MkdirAllLoop_bound _ p fs (Nat.lt_succ_self _)

theorem Create_spec (fs fs1 : FS) (p : String) (key : Key) (h : Create fs p = .ok (key, fs1)) :
    resolve fs p = .ok key ∧ trailingSlash p = false ∧
      (∀ w x, fs.get key ≠ some (.dir w x)) ∧ ∃ w, fs1 = fs.set key (.file [] w) := by
  unfold Create at h
  cases ho : sysOpenCreateTrunc fs p with
  | error e => simp only [ho] at h; simp at h
  | ok r =>
    simp only [ho, Except.ok.injEq] at h
    subst h
    unfold sysOpenCreateTrunc at ho
    cases hr : resolve fs p with
    | error e => simp only [hr] at ho; simp at ho
    | ok k =>
      simp only [hr] at ho
      cases hg : fs.get k with
      | none =>
        simp only [hg] at ho
        by_cases ht : trailingSlash p = true
        · simp [ht] at ho
        · simp only [ht, Bool.false_eq_true, if_false] at ho
          cases hp : parentWritable fs k with
          | error e => simp only [hp] at ho; simp at ho
          | ok u =>
            simp only [hp, Except.ok.injEq, Prod.mk.injEq] at ho
            obtain ⟨hk, hf⟩ := ho
            subst hk
            refine ⟨rfl, by simpa using ht, ?_, true, hf.symm⟩
            intro w x; rw [hg]; simp
      | some n =>
        cases n with
        | dir w x => simp only [hg] at ho; simp at ho
        | file d w =>
          simp only [hg] at ho
          by_cases ht : trailingSlash p = true
          · simp [ht] at ho
          · simp only [ht, Bool.false_eq_true, if_false] at ho
            by_cases hw : w = true
            · simp only [hw, if_true, Except.ok.injEq, Prod.mk.injEq] at ho
              obtain ⟨hk, hf⟩ := ho
              subst hk
              refine ⟨rfl, by simpa using ht, ?_, true, hf.symm⟩
              intro w x; rw [hg]; simp
            · simp [hw] at ho

theorem set_set (fs : FS) (k : Key) (n m : Node) : (fs.set k n).set k m = fs.set k m := by
  have h : ∀ nodes : List (Key × Node), eraseNode (eraseNode nodes k) k = eraseNode nodes k := by
    intro nodes
    induction nodes with
    | nil => rfl
    | cons e rest ih =>
      obtain ⟨k1, n1⟩ := e
      by_cases h1 : k1 = k
      · simp [eraseNode, h1, ih]
      · simp [eraseNode, h1, ih]
  simp [FS.set, eraseNode, h]

/-- Reading a path that resolves to a regular file. -/
theorem ReadFile_of_file (fs : FS) (p : String) (key : Key) (d : List Byte) (w : Bool)
    (hr : resolve fs p = .ok key) (hg : fs.get key = some (.file d w))
    (ht : trailingSlash p = false) : ReadFile fs p = .ok d := by
  simp [ReadFile, sysStat, hr, hg, ht]

/-- What a successful `SaveUploadedFile` leaves: the stream was opened and
read to its end, the destination resolves to a regular file holding exactly
the bytes of the stream, no other key was touched and nothing was logged. -/
theorem Save_ok (file : FileHeader) (dst : String) (w w1 : World)
    (h : SaveUploadedFile file dst w = (none, w1)) :
    ∃ src key wr, file.Open = .ok src ∧ src.err = none ∧ resolve w.fs dst = .ok key ∧
      trailingSlash dst = false ∧ (∀ a b, w.fs.get key ≠ some (.dir a b)) ∧
      w1 = { w with fs := w.fs.set key (.file src.data wr) } := by
  unfold SaveUploadedFile at h
  cases ho : file.Open with
  | error e => simp only [ho] at h; simp at h
  | ok src =>
    simp only [ho] at h
    cases hc : Create w.fs dst with
    | error e => simp only [hc] at h; simp at h
    | ok r =>
      obtain ⟨key, fs1⟩ := r
      simp only [hc, Copy] at h
      obtain ⟨hr, ht, hnd, wr, hfs⟩ := Create_spec _ _ _ _ hc
      cases he : src.err with
      | some e => simp only [he] at h; simp at h
      | none =>
        simp only [he, Prod.mk.injEq, true_and] at h
        refine ⟨src, key, wr, rfl, he, hr, ht, hnd, ?_⟩
        rw [← h, hfs]
        simp [sysWrite, get_set, set_set]

theorem Save_ok_ReadFile (file : FileHeader) (dst : String) (w w1 : World)
    (h : SaveUploadedFile file dst w = (none, w1)) :
    ∃ src, file.Open = .ok src ∧ src.err = none ∧ ReadFile w1.fs dst = .ok src.data := by
  obtain ⟨src, key, wr, ho, he, hr, ht, hnd, hw⟩ := Save_ok file dst w w1 h
  refine ⟨src, ho, he, ?_⟩
  subst hw
  have hk := dirsKept_set w.fs key (.file src.data wr) hnd
  exact ReadFile_of_file _ dst key src.data wr (resolve_kept _ _ hk dst key hr)
    (by simp [get_set]) ht

/-! ## A successful upload -/

/-- The path `ProcessImageUpload` builds for a timestamp and an extension. -/
theorem imagePath_eq (now : Int) (ext : String)
    (hext : ext = ".jpg" ∨ ext = ".jpeg" ∨ ext = ".png") :
    Join ["uploads/products", formatInt now ++ ext] = "uploads/products/" ++ formatInt now ++ ext := by
  rw [Join_upload _ (plainName_filename now ext hext)]
  rfl

/-- What a call that returns no error went through. -/
theorem Process_ok (ul : Char → Char) (now : Int) (file : FileHeader) (w : World)
    (h : (ProcessImageUpload ul now file w).1.2 = none) :
    (ToLower ul (Ext file.Filename) = ".jpg" ∨ ToLower ul (Ext file.Filename) = ".jpeg" ∨
        ToLower ul (Ext file.Filename) = ".png") ∧
      file.Size ≤ 5242880 ∧
      ∃ w1 w2,
        EnsureUploadDirectory "uploads/products" w = (none, w1) ∧
        SaveUploadedFile file
          ("uploads/products/" ++ formatInt now ++ ToLower ul (Ext file.Filename)) w1
            = (none, w2) ∧
        ProcessImageUpload ul now file w =
          (("uploads/products/" ++ formatInt now ++ ToLower ul (Ext file.Filename), none),
            w2.logDebug "uploaded image successfully"
              [("path", "uploads/products/" ++ formatInt now ++ ToLower ul (Ext file.Filename)),
                ("size", formatInt file.Size)]) := by
  by_cases ha : allowedTypes (ToLower ul (Ext file.Filename)) = true
  · have hext := (allowedTypes_iff _).mp ha
    by_cases hs : file.Size ≤ 5242880
    · refine ⟨hext, hs, ?_⟩
      have hp := Process_checked ul now file w ha hs
      rw [imagePath_eq now _ hext] at hp
      rw [hp] at h ⊢
      cases he : EnsureUploadDirectory "uploads/products" w with
      | mk r w1 =>
        cases r with
        | some err => simp only [he] at h; simp at h
        | none =>
          simp only [he] at h ⊢
          cases hsv : SaveUploadedFile file
              ("uploads/products/" ++ formatInt now ++ ToLower ul (Ext file.Filename)) w1 with
          | mk r2 w2 =>
            cases r2 with
            | some err => simp only [hsv] at h; simp at h
            | none => exact ⟨w1, w2, rfl, hsv, by simp only [hsv]⟩
    · rw [Process_tooLarge ul now file w ha (by omega)] at h
      simp at h
  · rw [Process_invalid ul now file w (by simpa using ha)] at h
    simp at h

/-! ## Removing a file -/

theorem sysStat_ok (fs : FS) (p : String) (n : Node) (h : sysStat fs p = .ok n) :
    ∃ key, resolve fs p = .ok key ∧ fs.get key = some n ∧
      (trailingSlash p = true → n.IsDir = true) := by
  unfold sysStat at h
  cases hr : resolve fs p with
  | error e => simp only [hr] at h; simp at h
  | ok key =>
    simp only [hr] at h
    cases hg : fs.get key with
    | none => simp only [hg] at h; simp at h
    | some m =>
      simp only [hg] at h
      by_cases hc : (trailingSlash p && !m.IsDir) = true
      · simp [hc] at h
      · simp only [hc, Bool.false_eq_true, if_false, Except.ok.injEq] at h
        subst h
        refine ⟨key, rfl, hg, ?_⟩
        intro ht
        simpa [ht] using hc

theorem Stat_ok (fs : FS) (p : String) (n : Node) (h : Stat fs p = .ok n) :
    sysStat fs p = .ok n := by
  unfold Stat at h
  cases hs : sysStat fs p with
  | error e => simp only [hs] at h; simp at h
  | ok m => simp only [hs, Except.ok.injEq] at h; rw [h]

/-- Removing a regular file succeeds only by unlinking it, after which the
path does not exist. -/
theorem Remove_file (fs fs1 : FS) (p : String) (d : List Byte) (wr : Bool)
    (hs : Stat fs p = .ok (.file d wr)) (h : Remove fs p = .ok fs1) :
    Stat fs1 p = .error (.pathError "stat" p .ENOENT) ∧
      ∃ key, resolve fs p = .ok key ∧ fs1 = fs.erase key := by
  obtain ⟨key, hr, hg, ht⟩ := sysStat_ok fs p _ (Stat_ok fs p _ hs)
  have ht2 : trailingSlash p = false := by
    cases hts : trailingSlash p with
    | false => rfl
    | true => simpa [Node.IsDir] using ht hts
  have hrm : sysRmdir fs p = .error .ENOTDIR := by
    simp [sysRmdir, hr, hg]
  unfold Remove at h
  cases hu : sysUnlink fs p with
  | error e =>
    simp only [hu, hrm] at h
    simp at h
  | ok fs2 =>
    simp only [hu, Except.ok.injEq] at h
    subst h
    have hfs : fs2 = fs.erase key := by
      unfold sysUnlink at hu
      simp only [hr, hg, ht2, Bool.false_eq_true, if_false] at hu
      cases hp : parentWritable fs key with
      | error e => simp only [hp] at hu; simp at hu
      | ok u => simp only [hp, Except.ok.injEq] at hu; exact hu.symm
    refine ⟨?_, key, hr, hfs⟩
    subst hfs
    have hk := dirsKept_erase fs key (by intro a b; rw [hg]; simp)
    simp [Stat, sysStat, resolve_kept _ _ hk p key hr, get_erase]

/-- A path that `Stat` reports missing cannot be removed. -/
theorem Remove_missing (fs : FS) (p : String)
    (hs : Stat fs p = .error (.pathError "stat" p .ENOENT)) :
    Remove fs p = .error (.pathError "remove" p .ENOENT) := by
  have hsys : sysStat fs p = .error .ENOENT := by
    unfold Stat at hs
    cases h : sysStat fs p with
    | ok n => simp only [h] at hs; simp at hs
    | error e =>
      simp only [h, Except.error.injEq, GoError.pathError.injEq, true_and] at hs
      rw [hs]
  unfold sysStat at hsys
  cases hr : resolve fs p with
  | error e =>
    simp only [hr, Except.error.injEq] at hsys
    subst hsys
    simp [Remove, sysUnlink, sysRmdir, hr]
  | ok key =>
    simp only [hr] at hsys
    cases hg : fs.get key with
    | none => simp [Remove, sysUnlink, sysRmdir, hr, hg]
    | some n =>
      simp only [hg] at hsys
      by_cases hc : (trailingSlash p && !n.IsDir) = true
      · simp [hc] at hsys
      · simp [hc] at hsys

/-! ## Two uploads in a row -/

theorem plainName_ne_dots (name : String) (h : PlainName name.data) :
    name ≠ "." ∧ name ≠ ".." := by
  obtain ⟨⟨c, t, hl, hc⟩, _⟩ := h
  constructor <;> intro e <;> subst e <;> simp at hl <;> exact hc hl.1.symm

/-- Resolving a path below `uploads/products` walks through the working
directory, `uploads` and `uploads/products`. -/
theorem resolve_upload (fs : FS) (name : String) (key : Key) (hn : PlainName name.data)
    (h : resolve fs ("uploads/products/" ++ name) = .ok key) :
    key = fs.cwd ++ ["uploads", "products", name] ∧
      searchDir fs fs.cwd = .ok () ∧ searchDir fs (fs.cwd ++ ["uploads"]) = .ok () ∧
      searchDir fs (fs.cwd ++ ["uploads", "products"]) = .ok () := by
  have hd : ("uploads/products/" ++ name).data = uploadDirSlash ++ name.data := rfl
  obtain ⟨hn1, hn2⟩ := plainName_ne_dots name hn
  unfold resolve at h
  rw [splitPath_upload name hn] at h
  have hne : ¬ (("uploads/products/" ++ name).data = []) := by rw [hd]; simp [uploadDirSlash]
  have hh : ¬ (("uploads/products/" ++ name).data.head? = some '/') := by
    rw [hd]; simp [uploadDirSlash]
  simp only [hne, hh, if_false] at h
  have hu1 : ("uploads" : String) ≠ "." := by decide
  have hu2 : ("uploads" : String) ≠ ".." := by decide
  have hp1 : ("products" : String) ≠ "." := by decide
  have hp2 : ("products" : String) ≠ ".." := by decide
  simp only [walk, stepKey, hu1, hu2, hp1, hp2, hn1, hn2, if_false] at h
  cases h1 : searchDir fs fs.cwd with
  | error e => simp only [h1] at h; simp at h
  | ok u1 =>
    simp only [h1] at h
    cases h2 : searchDir fs (fs.cwd ++ ["uploads"]) with
    | error e => simp only [h2] at h; simp at h
    | ok u2 =>
      simp only [h2] at h
      cases h3 : searchDir fs (fs.cwd ++ ["uploads"] ++ ["products"]) with
      | error e => simp only [h3] at h; simp at h
      | ok u3 =>
        simp only [h3, Except.ok.injEq] at h
        refine ⟨by rw [← h]; simp, rfl, rfl, ?_⟩
        have : fs.cwd ++ ["uploads", "products"] = fs.cwd ++ ["uploads"] ++ ["products"] := by simp
        rw [this, h3]

theorem Stat_uploadDir (fs : FS) (h1 : searchDir fs fs.cwd = .ok ())
    (h2 : searchDir fs (fs.cwd ++ ["uploads"]) = .ok ())
    (h3 : searchDir fs (fs.cwd ++ ["uploads", "products"]) = .ok ()) :
    ∃ w, Stat fs "uploads/products" = .ok (.dir w true) := by
  obtain ⟨w, hw⟩ := (searchDir_ok_iff _ _).mp h3
  refine ⟨w, ?_⟩
  have hs : splitPath "uploads/products" = ["uploads", "products"] := by decide
  have hr : resolve fs "uploads/products" = .ok (fs.cwd ++ ["uploads", "products"]) := by
    unfold resolve
    rw [hs]
    have hne : ¬ (("uploads/products" : String).data = []) := by decide
    have hh : ¬ (("uploads/products" : String).data.head? = some '/') := by decide
    have hu1 : ("uploads" : String) ≠ "." := by decide
    have hu2 : ("uploads" : String) ≠ ".." := by decide
    have hp1 : ("products" : String) ≠ "." := by decide
    have hp2 : ("products" : String) ≠ ".." := by decide
    simp only [hne, hh, if_false, walk, stepKey, hu1, hu2, hp1, hp2, h1, h2]
    simp
  have ht : trailingSlash "uploads/products" = false := by decide
  simp [Stat, sysStat, hr, hw, ht]

/-- When the path exists, `EnsureUploadDirectory` does nothing. -/
theorem Ensure_of_Stat_ok (p : String) (w : World) (n : Node) (h : Stat w.fs p = .ok n) :
    EnsureUploadDirectory p w = (none, w) := by
  simp [EnsureUploadDirectory, h, IsNotExist]

/-- A second upload that runs in the world left by a first one and stores
under another name leaves the file of the first as it was stored. -/
theorem second_keeps_first (ul : Char → Char) (t1 t2 : Int) (f1 f2 : FileHeader) (w : World)
    (h1 : (ProcessImageUpload ul t1 f1 w).1.2 = none)
    (h2 : (ProcessImageUpload ul t2 f2 (ProcessImageUpload ul t1 f1 w).2).1.2 = none)
    (hne : formatInt t1 ++ ToLower ul (Ext f1.Filename)
      ≠ formatInt t2 ++ ToLower ul (Ext f2.Filename)) :
    ∃ src1, f1.Open = .ok src1 ∧
      ReadFile (ProcessImageUpload ul t2 f2 (ProcessImageUpload ul t1 f1 w).2).2.fs
        ("uploads/products/" ++ formatInt t1 ++ ToLower ul (Ext f1.Filename)) = .ok src1.data := by
  obtain ⟨hext1, _, w1, w2, _, hsv1, hp1⟩ := Process_ok ul t1 f1 w h1
  obtain ⟨hext2, _, wa, wb, hen2, hsv2, hp2⟩ := Process_ok ul t2 f2 _ h2
  have hpn1 := plainName_filename t1 _ hext1
  have hpn2 := plainName_filename t2 _ hext2
  have ea1 : "uploads/products/" ++ formatInt t1 ++ ToLower ul (Ext f1.Filename)
      = "uploads/products/" ++ (formatInt t1 ++ ToLower ul (Ext f1.Filename)) := rfl
  have ea2 : "uploads/products/" ++ formatInt t2 ++ ToLower ul (Ext f2.Filename)
      = "uploads/products/" ++ (formatInt t2 ++ ToLower ul (Ext f2.Filename)) := rfl
  obtain ⟨src1, key1, wr1, ho1, _, hr1, ht1, hnd1, hw2⟩ := Save_ok f1 _ w1 w2 hsv1
  rw [ea1] at hr1
  obtain ⟨hk1, hs1, hs2, hs3⟩ := resolve_upload w1.fs _ key1 hpn1 hr1
  rw [hp2]
  rw [hp1] at hen2
  -- the world after the first call
  have hfs : (w2.logDebug "uploaded image successfully"
      [("path", "uploads/products/" ++ formatInt t1 ++ ToLower ul (Ext f1.Filename)),
        ("size", formatInt f1.Size)]).fs = w1.fs.set key1 (.file src1.data wr1) := by
    rw [hw2]; rfl
  have hkept1 := dirsKept_set w1.fs key1 (.file src1.data wr1) hnd1
  have hcwd : (w1.fs.set key1 (.file src1.data wr1)).cwd = w1.fs.cwd := rfl
  obtain ⟨wd, hst⟩ := Stat_uploadDir (w1.fs.set key1 (.file src1.data wr1))
    (hkept1.2 _ hs1) (hkept1.2 _ hs2) (hkept1.2 _ hs3)
  rw [← hfs] at hst
  rw [Ensure_of_Stat_ok _ _ _ hst] at hen2
  simp only [Prod.mk.injEq, true_and] at hen2
  subst hen2
  obtain ⟨src2, key2, wr2, _, _, hr2, _, hnd2, hwb⟩ := Save_ok f2 _ _ wb hsv2
  rw [hfs] at hr2 hnd2
  rw [ea2] at hr2
  obtain ⟨hk2, _, _, _⟩ := resolve_upload _ _ key2 hpn2 hr2
  rw [hcwd] at hk2
  have hkne : key1 ≠ key2 := by
    rw [hk1, hk2]
    intro e
    have := List.append_cancel_left e
    simp at this
    exact hne this
  refine ⟨src1, ho1, ?_⟩
  have hfsb : (wb.logDebug "uploaded image successfully"
      [("path", "uploads/products/" ++ formatInt t2 ++ ToLower ul (Ext f2.Filename)),
        ("size", formatInt f2.Size)]).fs
      = (w1.fs.set key1 (.file src1.data wr1)).set key2 (.file src2.data wr2) := by
    rw [hwb]
    show (FS.set _ key2 _) = _
    rw [hfs]
  rw [hfsb, ea1]
  have hkept2 := dirsKept_set _ key2 (.file src2.data wr2) hnd2
  exact ReadFile_of_file _ _ key1 src1.data wr1
    (resolve_kept _ _ hkept2 _ key1 (resolve_kept _ _ hkept1 _ key1 hr1))
    (by rw [get_set, if_neg hkne, get_set, if_pos rfl]) (by rw [← ea1]; exact ht1)

/-! ## The claims -/

/-- C1: a file whose lower-cased extension is none of `.jpg`, `.jpeg`, `.png`
is rejected, whatever its declared size and the state of the filesystem, with
the error `invalid image type: only JPG, JPEG, PNG are allowed` and the empty
path, and the world is returned as it was: no directory or file is created or
written (and nothing is logged). -/
theorem C1_invalid_type_rejected (unicodeLower : Char → Char) (now : Int) (file : FileHeader)
    (w : World)
    (hext : ToLower unicodeLower (Ext file.Filename) ≠ ".jpg" ∧
      ToLower unicodeLower (Ext file.Filename) ≠ ".jpeg" ∧
      ToLower unicodeLower (Ext file.Filename) ≠ ".png") :
    ProcessImageUpload unicodeLower now file w =
        (("", some (.errorString "invalid image type: only JPG, JPEG, PNG are allowed")), w) ∧
      (ProcessImageUpload unicodeLower now file w).2.fs = w.fs := by
  have ha : allowedTypes (ToLower unicodeLower (Ext file.Filename)) = false := by
    cases h : allowedTypes (ToLower unicodeLower (Ext file.Filename)) with
    | false => rfl
    | true =>
      rcases (allowedTypes_iff _).mp h with h1 | h1 | h1
      · exact absurd h1 hext.1
      · exact absurd h1 hext.2.1
      · exact absurd h1 hext.2.2
  rw [Process_invalid unicodeLower now file w ha]
  exact ⟨rfl, rfl⟩

theorem C1_invalid_type_rejected_witness :
    ProcessImageUpload id 1700000000000000000 exampleGif exampleWorld =
        (("", some (.errorString "invalid image type: only JPG, JPEG, PNG are allowed")),
          exampleWorld) ∧
      (ProcessImageUpload id 1700000000000000000 exampleGif exampleWorld).2.fs
        = exampleWorld.fs :=
  C1_invalid_type_rejected id 1700000000000000000 exampleGif exampleWorld (by decide)

/-- C2, as stated, fails: `anim.gif` declares 5,242,881 bytes, more than the
limit, and is rejected with the invalid-type error, not the too-large one. -/
theorem C2_counterexample :
    exampleGif.Size > 5242880 ∧
      (ProcessImageUpload id 0 exampleGif exampleWorld).1.2 ≠
        some (.errorString "image size must be less than 5MB") ∧
      (ProcessImageUpload id 0 exampleGif exampleWorld).1.2 =
        some (.errorString "invalid image type: only JPG, JPEG, PNG are allowed") := by
  decide

/-- C2 (amended): a file with an allowed lower-cased extension whose declared
size is above 5,242,880 bytes is rejected with the error
`image size must be less than 5MB` and the empty path, before any directory
or file operation: the world is returned as it was. -/
theorem C2_too_large_rejected (unicodeLower : Char → Char) (now : Int) (file : FileHeader)
    (w : World)
    (hext : ToLower unicodeLower (Ext file.Filename) = ".jpg" ∨
      ToLower unicodeLower (Ext file.Filename) = ".jpeg" ∨
      ToLower unicodeLower (Ext file.Filename) = ".png")
    (hsize : file.Size > 5242880) :
    ProcessImageUpload unicodeLower now file w =
        (("", some (.errorString "image size must be less than 5MB")), w) ∧
      (ProcessImageUpload unicodeLower now file w).2.fs = w.fs := by
  rw [Process_tooLarge unicodeLower now file w ((allowedTypes_iff _).mpr hext) hsize]
  exact ⟨rfl, rfl⟩

theorem C2_too_large_rejected_witness :
    ProcessImageUpload id 0 exampleOverLimit exampleWorld =
        (("", some (.errorString "image size must be less than 5MB")), exampleWorld) ∧
      (ProcessImageUpload id 0 exampleOverLimit exampleWorld).2.fs = exampleWorld.fs :=
  C2_too_large_rejected id 0 exampleOverLimit exampleWorld (by decide) (by decide)

/-- C3: whenever `ProcessImageUpload` returns no error, the returned path is
`uploads/products/` followed by the decimal rendering of the timestamp and by
the lower-cased extension of the uploaded file name, which is one of `.jpg`,
`.jpeg`, `.png`; for the extension `.png` and a non-negative clock the path is
`uploads/products/`, a non-empty run of digits fixed by the clock alone, and
`.png`, so that nothing else of the file name occurs in it. -/
theorem C3_stored_path (unicodeLower : Char → Char) (now : Int) (file : FileHeader) (w : World)
    (hok : (ProcessImageUpload unicodeLower now file w).1.2 = none) :
    (ProcessImageUpload unicodeLower now file w).1.1 =
        "uploads/products/" ++ formatInt now ++ ToLower unicodeLower (Ext file.Filename) ∧
      (ToLower unicodeLower (Ext file.Filename) = ".jpg" ∨
        ToLower unicodeLower (Ext file.Filename) = ".jpeg" ∨
        ToLower unicodeLower (Ext file.Filename) = ".png") ∧
      (ToLower unicodeLower (Ext file.Filename) = ".png" → 0 ≤ now →
        (ProcessImageUpload unicodeLower now file w).1.1 =
            "uploads/products/" ++ String.mk (formatNat now.toNat) ++ ".png" ∧
          formatNat now.toNat ≠ [] ∧ ∀ c ∈ formatNat now.toNat, IsDigit c) := by
  obtain ⟨hext, _, w1, w2, _, _, hp⟩ := Process_ok unicodeLower now file w hok
  refine ⟨by rw [hp], hext, ?_⟩
  intro hpng hnow
  refine ⟨?_, formatNat_ne_nil _, formatNat_isDigit _⟩
  rw [hp, hpng]
  have hf : formatInt now = String.mk (formatNat now.toNat) := by
    unfold formatInt
    have hn : ¬ now < 0 := by omega
    have ha : now.natAbs = now.toNat := by omega
    simp only [hn, if_false, ha]
  rw [hf]

theorem C3_stored_path_witness :
    (ProcessImageUpload id 1700000000000000000 examplePng exampleWorld).1.1 =
        "uploads/products/1700000000000000000.png" ∧
      (ProcessImageUpload id (-5) exampleJpeg exampleWorld).1.1 = "uploads/products/-5.jpeg" := by
  have h1 := C3_stored_path id 1700000000000000000 examplePng exampleWorld (by decide)
  have h2 := C3_stored_path id (-5) exampleJpeg exampleWorld (by decide)
  exact ⟨(h1.2.2 (by decide) (by decide)).1.trans (by decide), h2.1.trans (by decide)⟩

/-- C4: if `SaveUploadedFile` returns no error, the source stream was opened
and read to its end and the file at the destination path holds exactly the
bytes of the stream (hence as many), whatever was at that path before; and
after a `ProcessImageUpload` that returns no error the file at the returned
path holds exactly the bytes of the uploaded stream, so a 100-byte `.png`
leaves a 100-byte file with the same content. -/
theorem C4_saved_content (unicodeLower : Char → Char) (now : Int) (file : FileHeader)
    (dst : String) (w w1 : World) :
    (SaveUploadedFile file dst w = (none, w1) →
        ∃ src, file.Open = .ok src ∧ src.err = none ∧ ReadFile w1.fs dst = .ok src.data) ∧
      ((ProcessImageUpload unicodeLower now file w).1.2 = none →
        ∃ src, file.Open = .ok src ∧ src.err = none ∧
          ReadFile (ProcessImageUpload unicodeLower now file w).2.fs
            (ProcessImageUpload unicodeLower now file w).1.1 = .ok src.data) := by
  constructor
  · exact Save_ok_ReadFile file dst w w1
  · intro hok
    obtain ⟨_, _, wa, wb, _, hsv, hp⟩ := Process_ok unicodeLower now file w hok
    obtain ⟨src, ho, he, hr⟩ := Save_ok_ReadFile file _ wa wb hsv
    refine ⟨src, ho, he, ?_⟩
    rw [hp]
    exact hr

theorem C4_saved_content_witness :
    (∃ src, exampleJpeg.Open = .ok src ∧ src.err = none ∧
        ReadFile (SaveUploadedFile exampleJpeg "old.png" ⟨storedFS, []⟩).2.fs "old.png"
          = .ok src.data) ∧
      ∃ src, examplePng.Open = .ok src ∧ src.err = none ∧
        ReadFile (ProcessImageUpload id 1700000000000000000 examplePng exampleWorld).2.fs
          (ProcessImageUpload id 1700000000000000000 examplePng exampleWorld).1.1
            = .ok src.data :=
  ⟨(C4_saved_content id 0 exampleJpeg "old.png" ⟨storedFS, []⟩
      (SaveUploadedFile exampleJpeg "old.png" ⟨storedFS, []⟩).2).1 (by decide),
    (C4_saved_content id 1700000000000000000 examplePng "" exampleWorld exampleWorld).2
      (by decide)⟩

/-- C5: when the source stream cannot be opened, `SaveUploadedFile` returns
the error `failed to open uploaded file: ` followed by the message of the
cause, which it wraps, and the world is returned as it was: no destination
file is created and a file already at the destination keeps its content. -/
theorem C5_unreadable_source (file : FileHeader) (dst : String) (w : World) (cause : GoError)
    (hopen : file.Open = .error cause) :
    SaveUploadedFile file dst w =
        (some (.wrapError ("failed to open uploaded file: " ++ cause.Error) cause), w) ∧
      (SaveUploadedFile file dst w).2.fs = w.fs ∧
      ReadFile (SaveUploadedFile file dst w).2.fs dst = ReadFile w.fs dst := by
  have h : SaveUploadedFile file dst w =
      (some (.wrapError ("failed to open uploaded file: " ++ cause.Error) cause), w) := by
    simp [SaveUploadedFile, hopen, Errorf_w]
  rw [h]
  exact ⟨rfl, rfl, rfl⟩

theorem C5_unreadable_source_witness :
    SaveUploadedFile exampleUnreadable "old.png" ⟨storedFS, []⟩ =
        (some (.wrapError "failed to open uploaded file: multipart: temporary file is gone"
          (.errorString "multipart: temporary file is gone")), ⟨storedFS, []⟩) ∧
      ReadFile (SaveUploadedFile exampleUnreadable "old.png" ⟨storedFS, []⟩).2.fs "old.png"
        = .ok [1, 2, 3] := by
  have h := C5_unreadable_source exampleUnreadable "old.png" ⟨storedFS, []⟩
    (.errorString "multipart: temporary file is gone") rfl
  exact ⟨h.1, h.2.2.trans (by decide)⟩

/-- C6: `EnsureUploadDirectory` is idempotent: if a call on a path returns no
error, a second call on the same path in the world left by the first returns
no error either and leaves that world (filesystem and log) as it is. -/
theorem C6_ensure_idempotent (path : String) (w w1 : World)
    (hfirst : EnsureUploadDirectory path w = (none, w1)) :
    EnsureUploadDirectory path w1 = (none, w1) := by
  cases hs : Stat w.fs path with
  | ok n =>
    have h0 := Ensure_of_Stat_ok path w n hs
    rw [h0] at hfirst
    simp only [Prod.mk.injEq, true_and] at hfirst
    subst hfirst
    exact h0
  | error e =>
    by_cases hne : IsNotExist (some e) = true
    · unfold EnsureUploadDirectory at hfirst
      simp only [hs, hne, if_true] at hfirst
      cases hm : MkdirAll path w.fs with
      | mk r fs1 =>
        cases r with
        | some err => simp only [hm] at hfirst; simp at hfirst
        | none =>
          simp only [hm, Prod.mk.injEq, true_and] at hfirst
          subst hfirst
          obtain ⟨n, hn, _⟩ := MkdirAll_isDir path w.fs fs1 hm
          exact Ensure_of_Stat_ok path _ n hn
    · have h0 : EnsureUploadDirectory path w = (none, w) := by
        unfold EnsureUploadDirectory
        simp only [hs, hne, Bool.false_eq_true, if_false]
      rw [h0] at hfirst
      simp only [Prod.mk.injEq, true_and] at hfirst
      subst hfirst
      exact h0

theorem C6_ensure_idempotent_witness :
    EnsureUploadDirectory "uploads/products"
        (EnsureUploadDirectory "uploads/products" exampleWorld).2 =
      (none, (EnsureUploadDirectory "uploads/products" exampleWorld).2) ∧
      (EnsureUploadDirectory "uploads/products" exampleWorld).2.fs ≠ exampleWorld.fs :=
  ⟨C6_ensure_idempotent "uploads/products" exampleWorld
      (EnsureUploadDirectory "uploads/products" exampleWorld).2 (by decide), by decide⟩

/-- C7, as stated, fails: where `uploads/products` is a regular file,
`EnsureUploadDirectory` returns no error and changes nothing, so the path is
not a directory afterwards, and `ProcessImageUpload` goes on to the file
write, which fails because the upload directory does not exist; likewise
where `uploads` is a regular file, `os.Stat` fails with `ENOTDIR`, no error
is returned and the path does not exist. -/
theorem C7_counterexample :
    (EnsureUploadDirectory "uploads/products" ⟨blockedFS, []⟩ = (none, ⟨blockedFS, []⟩) ∧
        Stat blockedFS "uploads/products" = .ok (.file [] true) ∧
        (¬ ∃ n, Stat blockedFS "uploads/products" = .ok n ∧ n.IsDir = true) ∧
        (ProcessImageUpload id 42 examplePng ⟨blockedFS, []⟩).1.2 =
          some (Errorf_w "failed to save image: "
            (Errorf_w "failed to create destination file: "
              (.pathError "open" "uploads/products/42.png" .ENOTDIR)))) ∧
      (EnsureUploadDirectory "uploads/products" ⟨blockedParentFS, []⟩
          = (none, ⟨blockedParentFS, []⟩) ∧
        Stat blockedParentFS "uploads/products"
          = .error (.pathError "stat" "uploads/products" .ENOTDIR)) := by
  refine ⟨⟨by decide, by decide, ?_, by decide⟩, by decide, by decide⟩
  rintro ⟨n, hn, hd⟩
  have h : Stat blockedFS "uploads/products" = .ok (.file [] true) := by decide
  rw [h] at hn
  simp only [Except.ok.injEq] at hn
  subst hn
  simp [Node.IsDir] at hd

/-- C7 (amended): if `EnsureUploadDirectory` returns no error on a path that
`os.Stat` reported missing or that already was a directory, the path is a
directory afterwards; so when `ProcessImageUpload` gets past it in such a
state, `SaveUploadedFile` runs in a filesystem where `uploads/products` is a
directory. If `os.Stat` reported the path missing and `os.MkdirAll` fails,
that error is returned to the caller and logged, and `ProcessImageUpload`
returns a failure of `EnsureUploadDirectory` wrapped as
`failed to prepare upload directory: ...`, the world being the one
`EnsureUploadDirectory` left: no file write is attempted. -/
theorem C7_ensure_directory (unicodeLower : Char → Char) (now : Int) (file : FileHeader)
    (path : String) (w : World) :
    (∀ w1, EnsureUploadDirectory path w = (none, w1) →
        (Stat w.fs path = .error (.pathError "stat" path .ENOENT) ∨
          ∃ n, Stat w.fs path = .ok n ∧ n.IsDir = true) →
        ∃ n, Stat w1.fs path = .ok n ∧ n.IsDir = true) ∧
      (∀ w1, EnsureUploadDirectory "uploads/products" w = (none, w1) →
        (Stat w.fs "uploads/products" = .error (.pathError "stat" "uploads/products" .ENOENT) ∨
          ∃ n, Stat w.fs "uploads/products" = .ok n ∧ n.IsDir = true) →
        (ToLower unicodeLower (Ext file.Filename) = ".jpg" ∨
          ToLower unicodeLower (Ext file.Filename) = ".jpeg" ∨
          ToLower unicodeLower (Ext file.Filename) = ".png") →
        file.Size ≤ 5242880 →
        (∃ n, Stat w1.fs "uploads/products" = .ok n ∧ n.IsDir = true) ∧
          (ProcessImageUpload unicodeLower now file w).2.fs =
            (SaveUploadedFile file ("uploads/products/" ++ formatInt now ++
              ToLower unicodeLower (Ext file.Filename)) w1).2.fs) ∧
      (∀ err fs1, Stat w.fs path = .error (.pathError "stat" path .ENOENT) →
        MkdirAll path w.fs = (some err, fs1) →
        EnsureUploadDirectory path w =
          (some err, ({ w with fs := fs1 }).logError "failed to create upload directory"
            [("directory", path), ("error", err.Error)])) ∧
      (∀ err w1, EnsureUploadDirectory "uploads/products" w = (some err, w1) →
        (ToLower unicodeLower (Ext file.Filename) = ".jpg" ∨
          ToLower unicodeLower (Ext file.Filename) = ".jpeg" ∨
          ToLower unicodeLower (Ext file.Filename) = ".png") →
        file.Size ≤ 5242880 →
        ProcessImageUpload unicodeLower now file w =
          (("", some (.wrapError ("failed to prepare upload directory: " ++ err.Error) err)),
            w1)) := by
  have hdir : ∀ (p : String) (w1 : World), EnsureUploadDirectory p w = (none, w1) →
      (Stat w.fs p = .error (.pathError "stat" p .ENOENT) ∨
        ∃ n, Stat w.fs p = .ok n ∧ n.IsDir = true) →
      ∃ n, Stat w1.fs p = .ok n ∧ n.IsDir = true := by
    intro p w1 hok hpre
    rcases hpre with hmiss | ⟨n, hn, hd⟩
    · unfold EnsureUploadDirectory at hok
      simp only [hmiss, IsNotExist, if_true] at hok
      cases hm : MkdirAll p w.fs with
      | mk r fs1 =>
        cases r with
        | some err => simp only [hm] at hok; simp at hok
        | none =>
          simp only [hm, Prod.mk.injEq, true_and] at hok
          subst hok
          exact MkdirAll_isDir p w.fs fs1 hm
    · rw [Ensure_of_Stat_ok p w n hn] at hok
      simp only [Prod.mk.injEq, true_and] at hok
      subst hok
      exact ⟨n, hn, hd⟩
  refine ⟨hdir path, ?_, ?_, ?_⟩
  · intro w1 hen hpre hext hsize
    refine ⟨hdir _ w1 hen hpre, ?_⟩
    have hp := Process_checked unicodeLower now file w ((allowedTypes_iff _).mpr hext) hsize
    rw [imagePath_eq now _ hext] at hp
    rw [hp]
    simp only [hen]
    cases hsv : SaveUploadedFile file ("uploads/products/" ++ formatInt now ++
        ToLower unicodeLower (Ext file.Filename)) w1 with
    | mk r2 w2 => cases r2 <;> rfl
  · intro err fs1 hmiss hm
    unfold EnsureUploadDirectory
    simp only [hmiss, IsNotExist, if_true, hm]
  · intro err w1 hen hext hsize
    rw [Process_checked unicodeLower now file w ((allowedTypes_iff _).mpr hext) hsize]
    simp only [hen, Errorf_w]

theorem C7_ensure_directory_witness :
    (∃ n, Stat (EnsureUploadDirectory "uploads/products" exampleWorld).2.fs "uploads/products"
        = .ok n ∧ n.IsDir = true) ∧
      (ProcessImageUpload id 42 examplePng exampleWorld).2.fs =
        (SaveUploadedFile examplePng ("uploads/products/" ++ formatInt 42 ++
          ToLower id (Ext examplePng.Filename))
            (EnsureUploadDirectory "uploads/products" exampleWorld).2).2.fs ∧
      EnsureUploadDirectory "uploads/products" ⟨readOnlyFS, []⟩ =
        (some (.pathError "mkdir" "uploads/" .EACCES),
          ⟨readOnlyFS, [⟨.error, "failed to create upload directory",
            [("directory", "uploads/products"),
              ("error", "mkdir uploads/: permission denied")]⟩]⟩) ∧
      ProcessImageUpload id 42 examplePng ⟨readOnlyFS, []⟩ =
        (("", some (.wrapError
            "failed to prepare upload directory: mkdir uploads/: permission denied"
            (.pathError "mkdir" "uploads/" .EACCES))),
          ⟨readOnlyFS, [⟨.error, "failed to create upload directory",
            [("directory", "uploads/products"),
              ("error", "mkdir uploads/: permission denied")]⟩]⟩) := by
  have h := C7_ensure_directory id 42 examplePng "uploads/products" exampleWorld
  have h2 := C7_ensure_directory id 42 examplePng "uploads/products" ⟨readOnlyFS, []⟩
  have e1 := h2.2.2.1 (.pathError "mkdir" "uploads/" .EACCES) readOnlyFS (by decide)
    (by decide)
  have e2 := h2.2.2.2 (.pathError "mkdir" "uploads/" .EACCES)
    ⟨readOnlyFS, [⟨.error, "failed to create upload directory",
      [("directory", "uploads/products"), ("error", "mkdir uploads/: permission denied")]⟩]⟩
    (by decide) (by decide) (by decide)
  exact ⟨h.1 _ rfl (Or.inl (by decide)),
    (h.2.1 _ rfl (Or.inl (by decide)) (by decide) (by decide)).2,
    e1.trans (by decide), e2.trans (by decide)⟩

/-- C8: `CleanupImageOnFailure` has no result to report an error in; when the
removal fails, in particular when the path does not exist, the filesystem is
left as it was and the failure is recorded only as one debug event; when the
path is a regular file that can be removed, the path does not exist
afterwards and nothing is logged. -/
theorem C8_cleanup_swallows_failure (imagePath : String) (w : World) :
    (∀ removeErr, Remove w.fs imagePath = .error removeErr →
        CleanupImageOnFailure imagePath w =
          ⟨w.fs, w.log ++ [⟨.debug, "failed to cleanup uploaded file",
            [("path", imagePath), ("error", removeErr.Error)]⟩]⟩) ∧
      (Stat w.fs imagePath = .error (.pathError "stat" imagePath .ENOENT) →
        CleanupImageOnFailure imagePath w =
          ⟨w.fs, w.log ++ [⟨.debug, "failed to cleanup uploaded file",
            [("path", imagePath),
              ("error", (GoError.pathError "remove" imagePath .ENOENT).Error)]⟩]⟩) ∧
      (∀ data wr fs1, Stat w.fs imagePath = .ok (.file data wr) →
        Remove w.fs imagePath = .ok fs1 →
        CleanupImageOnFailure imagePath w = ⟨fs1, w.log⟩ ∧
          Stat (CleanupImageOnFailure imagePath w).fs imagePath =
            .error (.pathError "stat" imagePath .ENOENT)) := by
  refine ⟨?_, ?_, ?_⟩
  · intro e he
    simp only [CleanupImageOnFailure, he, World.logDebug]
  · intro hmiss
    simp only [CleanupImageOnFailure, Remove_missing w.fs imagePath hmiss, World.logDebug]
  · intro data wr fs1 hs hr
    have hc : CleanupImageOnFailure imagePath w = ⟨fs1, w.log⟩ := by
      simp only [CleanupImageOnFailure, hr]
    rw [hc]
    exact ⟨rfl, (Remove_file w.fs fs1 imagePath data wr hs hr).1⟩

theorem C8_cleanup_swallows_failure_witness :
    CleanupImageOnFailure "uploads/products/1.png" exampleWorld =
        ⟨exampleFS, [⟨.debug, "failed to cleanup uploaded file",
          [("path", "uploads/products/1.png"),
            ("error", "remove uploads/products/1.png: no such file or directory")]⟩]⟩ ∧
      CleanupImageOnFailure "/srv" exampleWorld =
        ⟨exampleFS, [⟨.debug, "failed to cleanup uploaded file",
          [("path", "/srv"), ("error", "remove /srv: directory not empty")]⟩]⟩ ∧
      CleanupImageOnFailure "old.png" ⟨storedFS, []⟩ = exampleWorld ∧
      Stat (CleanupImageOnFailure "old.png" ⟨storedFS, []⟩).fs "old.png" =
        .error (.pathError "stat" "old.png" .ENOENT) := by
  have h1 := C8_cleanup_swallows_failure "uploads/products/1.png" exampleWorld
  have h2 := C8_cleanup_swallows_failure "/srv" exampleWorld
  have h3 := C8_cleanup_swallows_failure "old.png" ⟨storedFS, []⟩
  have h4 := h3.2.2 [1, 2, 3] true exampleFS (by decide) (by decide)
  exact ⟨h1.2.1 (by decide), (h2.1 (.pathError "remove" "/srv" .ENOTEMPTY) (by decide)),
    h4.1, h4.2⟩

/-- The stored path determines the timestamp and the extension. -/
theorem imagePath_injective (t1 t2 : Int) (e1 e2 : String)
    (h1 : e1 = ".jpg" ∨ e1 = ".jpeg" ∨ e1 = ".png")
    (h2 : e2 = ".jpg" ∨ e2 = ".jpeg" ∨ e2 = ".png")
    (h : "uploads/products/" ++ formatInt t1 ++ e1 = "uploads/products/" ++ formatInt t2 ++ e2) :
    t1 = t2 ∧ e1 = e2 := by
  have hd := congrArg String.data h
  have hd1 : ("uploads/products/" ++ formatInt t1 ++ e1).data
      = uploadDirSlash ++ ((formatInt t1).data ++ e1.data) := by
    show (uploadDirSlash ++ (formatInt t1).data) ++ e1.data = _
    rw [List.append_assoc]
  have hd2 : ("uploads/products/" ++ formatInt t2 ++ e2).data
      = uploadDirSlash ++ ((formatInt t2).data ++ e2.data) := by
    show (uploadDirSlash ++ (formatInt t2).data) ++ e2.data = _
    rw [List.append_assoc]
  rw [hd1, hd2] at hd
  have hl := List.append_cancel_left hd
  have hnd : ∀ t : Int, ∀ x ∈ (formatInt t).data, (fun c => decide (c ≠ '.')) x = true := by
    intro t x hx
    simpa using (IsDigit_ne x (formatInt_chars t x hx)).1
  have hdot : ∀ e : String, (e = ".jpg" ∨ e = ".jpeg" ∨ e = ".png") →
      e.data.takeWhile (fun c => decide (c ≠ '.')) = [] := by
    intro e he
    rcases he with h | h | h <;> subst h <;> decide
  have ht := congrArg (List.takeWhile (fun c => decide (c ≠ '.'))) hl
  rw [List.takeWhile_append_of_pos (hnd t1), List.takeWhile_append_of_pos (hnd t2),
    hdot e1 h1, hdot e2 h2, List.append_nil, List.append_nil] at ht
  have hts : formatInt t1 = formatInt t2 := by
    have : String.mk (formatInt t1).data = String.mk (formatInt t2).data := by rw [ht]
    exact this
  have hte := formatInt_injective t1 t2 hts
  subst hte
  have he := List.append_cancel_left hl
  refine ⟨rfl, ?_⟩
  have : String.mk e1.data = String.mk e2.data := by rw [he]
  exact this

/-- After both checks have passed the error, if any, is a wrapping one. -/
theorem Process_checked_error (ul : Char → Char) (now : Int) (file : FileHeader) (w : World)
    (h : allowedTypes (ToLower ul (Ext file.Filename)) = true) (hs : file.Size ≤ 5242880)
    (s : String) : (ProcessImageUpload ul now file w).1.2 ≠ some (.errorString s) := by
  rw [Process_checked ul now file w h hs]
  cases he : EnsureUploadDirectory "uploads/products" w with
  | mk r w1 =>
    cases r with
    | some err => simp [Errorf_w]
    | none =>
      simp only
      cases hsv : SaveUploadedFile file
          (Join ["uploads/products", formatInt now ++ ToLower ul (Ext file.Filename)]) w1 with
      | mk r2 w2 =>
        cases r2 with
        | some err => simp [Errorf_w]
        | none => simp

/-- C9: for a file with an allowed lower-cased extension the too-large error
is returned exactly when the declared size is above 5,242,880 = 5 * 2^20 =
5<<20 bytes; a declared size of exactly 5,242,880 passes the check and the
call goes on to prepare the directory (a failure of `EnsureUploadDirectory`
is what it returns, and after a success the filesystem is the one
`SaveUploadedFile` leaves), while 5,242,881 is rejected; and a file with a
disallowed extension and a size above the limit gets the invalid-type
error. -/
theorem C9_size_limit (unicodeLower : Char → Char) (now : Int) (file : FileHeader) (w : World) :
    ((ToLower unicodeLower (Ext file.Filename) = ".jpg" ∨
        ToLower unicodeLower (Ext file.Filename) = ".jpeg" ∨
        ToLower unicodeLower (Ext file.Filename) = ".png") →
      (((ProcessImageUpload unicodeLower now file w).1.2 =
          some (.errorString "image size must be less than 5MB") ↔ file.Size > 5242880) ∧
        (file.Size = 5242880 →
          (∀ err w1, EnsureUploadDirectory "uploads/products" w = (some err, w1) →
              ProcessImageUpload unicodeLower now file w =
                (("", some (.wrapError
                  ("failed to prepare upload directory: " ++ err.Error) err)), w1)) ∧
            (∀ w1, EnsureUploadDirectory "uploads/products" w = (none, w1) →
              (ProcessImageUpload unicodeLower now file w).2.fs =
                (SaveUploadedFile file ("uploads/products/" ++ formatInt now ++
                  ToLower unicodeLower (Ext file.Filename)) w1).2.fs)) ∧
        (file.Size = 5242881 →
          ProcessImageUpload unicodeLower now file w =
            (("", some (.errorString "image size must be less than 5MB")), w)))) ∧
      ((ToLower unicodeLower (Ext file.Filename) ≠ ".jpg" ∧
          ToLower unicodeLower (Ext file.Filename) ≠ ".jpeg" ∧
          ToLower unicodeLower (Ext file.Filename) ≠ ".png") →
        file.Size > 5242880 →
        (ProcessImageUpload unicodeLower now file w).1.2 =
          some (.errorString "invalid image type: only JPG, JPEG, PNG are allowed")) ∧
      (5 <<< 20 : Nat) = 5242880 ∧ 5 * 2 ^ 20 = 5242880 := by
  refine ⟨?_, ?_, by decide, by decide⟩
  · intro hext
    have ha := (allowedTypes_iff _).mpr hext
    refine ⟨⟨?_, ?_⟩, ?_, ?_⟩
    · intro herr
      by_contra hle
      exact Process_checked_error unicodeLower now file w ha (by omega) _ herr
    · intro hgt
      rw [Process_tooLarge unicodeLower now file w ha hgt]
    · intro hsz
      have hp := Process_checked unicodeLower now file w ha (by omega)
      rw [imagePath_eq now _ hext] at hp
      constructor
      · intro err w1 hen
        rw [hp]
        simp only [hen, Errorf_w]
      · intro w1 hen
        rw [hp]
        simp only [hen]
        cases hsv : SaveUploadedFile file ("uploads/products/" ++ formatInt now ++
            ToLower unicodeLower (Ext file.Filename)) w1 with
        | mk r2 w2 => cases r2 <;> rfl
    · intro hsz
      exact Process_tooLarge unicodeLower now file w ha (by omega)
  · intro hext _
    have ha : allowedTypes (ToLower unicodeLower (Ext file.Filename)) = false := by
      cases h : allowedTypes (ToLower unicodeLower (Ext file.Filename)) with
      | false => rfl
      | true =>
        rcases (allowedTypes_iff _).mp h with h1 | h1 | h1
        · exact absurd h1 hext.1
        · exact absurd h1 hext.2.1
        · exact absurd h1 hext.2.2
    rw [Process_invalid unicodeLower now file w ha]

theorem C9_size_limit_witness :
    (ProcessImageUpload id 7 exampleAtLimit exampleWorld).1.2 ≠
        some (.errorString "image size must be less than 5MB") ∧
      ProcessImageUpload id 7 exampleAtLimit ⟨readOnlyFS, []⟩ =
        (("", some (.wrapError
            "failed to prepare upload directory: mkdir uploads/: permission denied"
            (.pathError "mkdir" "uploads/" .EACCES))),
          ⟨readOnlyFS, [⟨.error, "failed to create upload directory",
            [("directory", "uploads/products"),
              ("error", "mkdir uploads/: permission denied")]⟩]⟩) ∧
      ProcessImageUpload id 7 exampleOverLimit exampleWorld =
        (("", some (.errorString "image size must be less than 5MB")), exampleWorld) ∧
      (ProcessImageUpload id 7 exampleGif exampleWorld).1.2 =
        some (.errorString "invalid image type: only JPG, JPEG, PNG are allowed") := by
  have h1 := (C9_size_limit id 7 exampleAtLimit exampleWorld).1 (by decide)
  have h2 := (C9_size_limit id 7 exampleAtLimit ⟨readOnlyFS, []⟩).1 (by decide)
  have h3 := (C9_size_limit id 7 exampleOverLimit exampleWorld).1 (by decide)
  have h4 := (C9_size_limit id 7 exampleGif exampleWorld).2.1 (by decide) (by decide)
  have e2 := (h2.2.1 (by decide)).1 (.pathError "mkdir" "uploads/" .EACCES)
    ⟨readOnlyFS, [⟨.error, "failed to create upload directory",
      [("directory", "uploads/products"), ("error", "mkdir uploads/: permission denied")]⟩]⟩
    (by decide)
  refine ⟨?_, e2.trans (by decide), h3.2.2 (by decide), h4⟩
  intro h
  exact absurd (h1.1.mp h) (by decide)

/-- C10: for two calls of `ProcessImageUpload` that return no error, the
returned paths differ whenever the observed timestamps differ or the
lower-cased extensions differ, and are equal when both are equal; and when
the second call runs in the world left by the first and returns another
path, it stores its own file and the file of the first call still holds the
bytes of the first upload. -/
theorem C10_distinct_paths (unicodeLower : Char → Char) (t1 t2 : Int) (f1 f2 : FileHeader)
    (w1 w2 : World)
    (hok1 : (ProcessImageUpload unicodeLower t1 f1 w1).1.2 = none)
    (hok2 : (ProcessImageUpload unicodeLower t2 f2 w2).1.2 = none) :
    ((t1 ≠ t2 ∨ ToLower unicodeLower (Ext f1.Filename) ≠ ToLower unicodeLower (Ext f2.Filename)) →
        (ProcessImageUpload unicodeLower t1 f1 w1).1.1 ≠
          (ProcessImageUpload unicodeLower t2 f2 w2).1.1) ∧
      ((t1 = t2 ∧ ToLower unicodeLower (Ext f1.Filename) = ToLower unicodeLower (Ext f2.Filename)) →
        (ProcessImageUpload unicodeLower t1 f1 w1).1.1 =
          (ProcessImageUpload unicodeLower t2 f2 w2).1.1) ∧
      (w2 = (ProcessImageUpload unicodeLower t1 f1 w1).2 →
        (ProcessImageUpload unicodeLower t1 f1 w1).1.1 ≠
          (ProcessImageUpload unicodeLower t2 f2 w2).1.1 →
        ∃ src1 src2, f1.Open = .ok src1 ∧ f2.Open = .ok src2 ∧
          ReadFile (ProcessImageUpload unicodeLower t2 f2 w2).2.fs
            (ProcessImageUpload unicodeLower t1 f1 w1).1.1 = .ok src1.data ∧
          ReadFile (ProcessImageUpload unicodeLower t2 f2 w2).2.fs
            (ProcessImageUpload unicodeLower t2 f2 w2).1.1 = .ok src2.data) := by
  obtain ⟨hext1, _, _, _, _, _, hp1⟩ := Process_ok unicodeLower t1 f1 w1 hok1
  obtain ⟨hext2, _, wa, wb, _, hsv2, hp2⟩ := Process_ok unicodeLower t2 f2 w2 hok2
  have e1 : (ProcessImageUpload unicodeLower t1 f1 w1).1.1 =
      "uploads/products/" ++ formatInt t1 ++ ToLower unicodeLower (Ext f1.Filename) := by rw [hp1]
  have e2 : (ProcessImageUpload unicodeLower t2 f2 w2).1.1 =
      "uploads/products/" ++ formatInt t2 ++ ToLower unicodeLower (Ext f2.Filename) := by rw [hp2]
  refine ⟨?_, ?_, ?_⟩
  · intro hne heq
    rw [e1, e2] at heq
    obtain ⟨ht, he⟩ := imagePath_injective t1 t2 _ _ hext1 hext2 heq
    rcases hne with h | h
    · exact h ht
    · exact h he
  · rintro ⟨ht, he⟩
    rw [e1, e2, ht, he]
  · intro hw hne
    subst hw
    have hname : formatInt t1 ++ ToLower unicodeLower (Ext f1.Filename)
        ≠ formatInt t2 ++ ToLower unicodeLower (Ext f2.Filename) := by
      intro e
      apply hne
      rw [e1, e2]
      show "uploads/products/" ++ (formatInt t1 ++ ToLower unicodeLower (Ext f1.Filename))
        = "uploads/products/" ++ (formatInt t2 ++ ToLower unicodeLower (Ext f2.Filename))
      rw [e]
    obtain ⟨src1, ho1, hr1⟩ := second_keeps_first unicodeLower t1 t2 f1 f2 w1 hok1 hok2 hname
    obtain ⟨src2, ho2, _, hr2⟩ := Save_ok_ReadFile f2 _ wa wb hsv2
    refine ⟨src1, src2, ho1, ho2, ?_, ?_⟩
    · rw [e1]; exact hr1
    · rw [hp2]; exact hr2

theorem C10_distinct_paths_witness :
    (ProcessImageUpload id 1 examplePng exampleWorld).1.1 ≠
        (ProcessImageUpload id 2 exampleJpeg
          (ProcessImageUpload id 1 examplePng exampleWorld).2).1.1 ∧
      (ProcessImageUpload id 1 examplePng exampleWorld).1.1 =
        (ProcessImageUpload id 1 examplePng ⟨storedFS, []⟩).1.1 ∧
      ∃ src1 src2, examplePng.Open = .ok src1 ∧ exampleJpeg.Open = .ok src2 ∧
        ReadFile (ProcessImageUpload id 2 exampleJpeg
            (ProcessImageUpload id 1 examplePng exampleWorld).2).2.fs
          (ProcessImageUpload id 1 examplePng exampleWorld).1.1 = .ok src1.data ∧
        ReadFile (ProcessImageUpload id 2 exampleJpeg
            (ProcessImageUpload id 1 examplePng exampleWorld).2).2.fs
          (ProcessImageUpload id 2 exampleJpeg
            (ProcessImageUpload id 1 examplePng exampleWorld).2).1.1 = .ok src2.data := by
  have h := C10_distinct_paths id 1 2 examplePng exampleJpeg exampleWorld
    (ProcessImageUpload id 1 examplePng exampleWorld).2 (by decide) (by decide)
  have h2 := C10_distinct_paths id 1 1 examplePng examplePng exampleWorld ⟨storedFS, []⟩
    (by decide) (by decide)
  exact ⟨h.1 (Or.inl (by decide)), h2.2.1 ⟨rfl, rfl⟩,
    h.2.2 rfl (h.1 (Or.inl (by decide)))⟩

end Upload
